import Mathlib

/-!
Verification of the cross-camera surveillance engine: a shallow embedding in
Lean 4 of the identity-matching, camera-topology gating, intrusion state
machine, zone camera filtering and event-deduplication code, together with
theorems settling the specified properties.

Conventions of the embedding:
* Python floats are modelled as exact rationals (`ℚ`); none of the verified
  properties depends on floating-point rounding.
* Python `None` becomes `Option`; Python dicts that are only ever iterated in
  insertion order become association lists (`List (key × value)`).
* Appearance embeddings are opaque values of a type parameter `E`, and the
  external `scipy.spatial.distance.cosine` function is a parameter
  `cosine : E → E → ℚ`; the matching logic never inspects embeddings except
  through it.
-/

namespace Surveillance

/-- Camera identifiers (the Python code uses strings). -/
abbrev Cam := String

/-! ## src/utils/camera_network.py -/

/-- `CameraEdge` from camera_network.py: a directed allowed transition with an
optional `[min_s, max_s]` time window. -/
structure CameraEdge where
  src : Cam
  dst : Cam
  min_s : Option ℚ
  max_s : Option ℚ
deriving Repr, DecidableEq

/-- `CameraNetwork.__init__` state: the edge list plus the two configuration
fields.  The derived `_adj`/`_rev_adj` maps are recomputed on demand here
(filtering `edges` preserves their insertion-order semantics). -/
structure CameraNetwork where
  edges : List CameraEdge
  default_max_gap_s : Option ℚ
  allow_same_camera_match : Bool
deriving Repr, DecidableEq

namespace CameraNetwork

/-- `CameraNetwork.is_open`: true when no edges are configured. -/
def is_open (net : CameraNetwork) : Bool :=
  net.edges.isEmpty

/-- One iteration of the edge loop in `allowed_transition`: does edge `e`
let the pair `(p, n)` through for time delta `dt`?  Mirrors lines 75–90 of
camera_network.py: edges with a different destination are skipped by the
caller's `src`/`dst` test, a time-agnostic edge always allows, a windowed edge
with unknown `dt` allows, otherwise `min_s <= dt <= max_s` with defaults
`min_s = 0`, `max_s = +inf`. -/
def edgeAllows (e : CameraEdge) (p n : Cam) (dt : Option ℚ) : Bool :=
  if e.src = p ∧ e.dst = n then
    if e.min_s = none ∧ e.max_s = none then true
    else
      match dt with
      | none => true
      | some d =>
        decide (e.min_s.getD 0 ≤ d) &&
          (match e.max_s with | none => true | some mx => decide (d ≤ mx))
  else false

/-- The global-maximum-gap test of `allowed_transition` (line 72 of
camera_network.py): reject only when both `dt` and the configured gap are
known and `dt` exceeds the gap. -/
def gapExceeded (dt_s gap : Option ℚ) : Bool :=
  match dt_s, gap with
  | some d, some g => decide (d > g)
  | _, _ => false

/-- `CameraNetwork.allowed_transition`, translated clause by clause in the
source's order: unknown camera ⇒ allow; same camera ⇒ the
`allow_same_camera_match` flag; open network ⇒ allow; `dt` above the global
maximum gap ⇒ reject; otherwise search the edges `prev → new`.  (The Python
`float()` conversions cannot fail in this typed model.) -/
def allowed_transition (net : CameraNetwork) (prev_camera new_camera : Option Cam)
    (dt_s : Option ℚ) : Bool :=
  match prev_camera, new_camera with
  | none, _ => true
  | _, none => true
  | some p, some n =>
    if p = n then net.allow_same_camera_match
    else if net.is_open then true
    else if gapExceeded dt_s net.default_max_gap_s then false
    else net.edges.any (fun e => edgeAllows e p n dt_s)

/-- `CameraNetwork.neighbors_out`: destinations of edges leaving `camera_id`;
empty for an open network. -/
def neighbors_out (net : CameraNetwork) (camera_id : Cam) : List Cam :=
  if net.is_open then []
  else (net.edges.filter (fun e => e.src = camera_id)).map (fun e => e.dst)

/-- `CameraNetwork.neighbors_in`: sources of edges entering `camera_id`;
empty for an open network. -/
def neighbors_in (net : CameraNetwork) (camera_id : Cam) : List Cam :=
  if net.is_open then []
  else (net.edges.filter (fun e => e.dst = camera_id)).map (fun e => e.src)

/-- `CameraNetwork.are_adjacent`: connected by at least one edge in either
direction; vacuously true for an open network. -/
def are_adjacent (net : CameraNetwork) (a b : Cam) : Bool :=
  if net.is_open then true
  else decide (b ∈ net.neighbors_out a) || decide (a ∈ net.neighbors_out b)

end CameraNetwork

/-! ## src/reid/matcher.py -/

/-- One entry of `ReIDMatcher.global_tracks`: the per-identity dict
`{embeddings: [...], last_seen: ..., last_camera: ...}`. -/
structure GlobalTrack (E : Type) where
  embeddings : List E
  last_seen : Option ℚ
  last_camera : Option Cam
deriving Repr, DecidableEq

/-- `ReIDMatcher` state.  `global_tracks` is a Python dict keyed by
`global_id`, iterated in insertion order, hence an association list here. -/
structure ReIDMatcher (E : Type) where
  threshold : ℚ
  global_tracks : List (ℕ × GlobalTrack E)
  next_global_id : ℕ
  camera_network : Option CameraNetwork
deriving Repr, DecidableEq

namespace ReIDMatcher

/-- `ReIDMatcher.__init__`. -/
def init {E : Type} (threshold : ℚ) (camera_network : Option CameraNetwork) :
    ReIDMatcher E :=
  { threshold := threshold
    global_tracks := []
    next_global_id := 1
    camera_network := camera_network }

/-- Lines 40–45 of matcher.py: the time delta fed to the gating check —
`timestamp - last_seen`, replaced by its absolute value when negative, and
unknown when either timestamp is unknown. -/
def dtOf (last_seen timestamp : Option ℚ) : Option ℚ :=
  match last_seen, timestamp with
  | some l, some t => let d := t - l; some (if d < 0 then -d else d)
  | _, _ => none

/-- Lines 36–50 of matcher.py: a stored identity survives the optional
topology gating when no network is configured or `allowed_transition` lets
the `last_camera → camera_id` transition through.  (The `try/except` of the
source cannot fire in this pure model.) -/
def survives {E : Type} (net : Option CameraNetwork) (timestamp : Option ℚ)
    (camera_id : Option Cam) (data : GlobalTrack E) : Bool :=
  match net with
  | none => true
  | some n => n.allowed_transition data.last_camera camera_id (dtOf data.last_seen timestamp)

/-- Lines 54–59 of matcher.py: distance of the new embedding to a stored
identity — the minimum cosine distance to any stored embedding, `1.0` when
the buffer is empty. -/
def distToTrack {E : Type} (cosine : E → E → ℚ) (track_embedding : E) : List E → ℚ
  | [] => 1
  | e :: rest =>
    match rest with
    | [] => cosine track_embedding e
    | _ => min (cosine track_embedding e) (distToTrack cosine track_embedding rest)

/-- Lines 31–63 of matcher.py: the candidate loop, carrying
`(best_match_id, min_dist)`; the initial `min_dist = inf` with
`best_match_id = None` is the `none` accumulator. -/
def scanTracks {E : Type} (cosine : E → E → ℚ) (net : Option CameraNetwork)
    (track_embedding : E) (timestamp : Option ℚ) (camera_id : Option Cam) :
    List (ℕ × GlobalTrack E) → Option (ℕ × ℚ) → Option (ℕ × ℚ)
  | [], best => best
  | (gid, data) :: rest, best =>
    if survives net timestamp camera_id data then
      let dist := distToTrack cosine track_embedding data.embeddings
      let best' :=
        match best with
        | none => some (gid, dist)
        | some (bg, bd) => if dist < bd then some (gid, dist) else some (bg, bd)
      scanTracks cosine net track_embedding timestamp camera_id rest best'
    else scanTracks cosine net track_embedding timestamp camera_id rest best

/-- Lines 67–72 of matcher.py: append the new embedding to the ring buffer
and pop the oldest entry when the buffer now exceeds 10. -/
def appendEvict {E : Type} (track_embedding : E) (buf : List E) : List E :=
  let buf' := buf ++ [track_embedding]
  if buf'.length > 10 then buf'.tail else buf'

/-- Lines 67–69 of matcher.py: the in-place mutation of the matched
identity. -/
def updateTrack {E : Type} (track_embedding : E) (timestamp : Option ℚ)
    (camera_id : Option Cam) (data : GlobalTrack E) : GlobalTrack E :=
  { embeddings := appendEvict track_embedding data.embeddings
    last_seen := timestamp
    last_camera := camera_id }

/-- Point update of the `global_tracks` dict at key `g` (in-place dict
mutation keeps insertion order). -/
def setTrack {E : Type} (l : List (ℕ × GlobalTrack E)) (g : ℕ)
    (f : GlobalTrack E → GlobalTrack E) : List (ℕ × GlobalTrack E) :=
  l.map fun p => if p.1 = g then (p.1, f p.2) else p

/-- Lines 74–83 of matcher.py: allocate a brand-new identity seeded with this
embedding and return the next sequential id. -/
def newGlobal {E : Type} (m : ReIDMatcher E) (track_embedding : E)
    (timestamp : Option ℚ) (camera_id : Option Cam) : ℕ × ReIDMatcher E :=
  (m.next_global_id,
   { m with
      next_global_id := m.next_global_id + 1
      global_tracks := m.global_tracks ++
        [(m.next_global_id, ⟨[track_embedding], timestamp, camera_id⟩)] })

/-- The matcher state after merging the embedding into identity `g`
(lines 67–72 of matcher.py). -/
def mergedState {E : Type} (m : ReIDMatcher E) (g : ℕ) (track_embedding : E)
    (timestamp : Option ℚ) (camera_id : Option Cam) : ReIDMatcher E :=
  { m with global_tracks :=
      setTrack m.global_tracks g (updateTrack track_embedding timestamp camera_id) }

/-- `ReIDMatcher.match_track`: run the candidate scan, then either merge into
the best identity (when `min_dist < threshold`) or create a new one.  Returns
the chosen `global_id` together with the updated matcher state. -/
def match_track {E : Type} (cosine : E → E → ℚ) (m : ReIDMatcher E)
    (track_embedding : E) (timestamp : Option ℚ) (camera_id : Option Cam) :
    ℕ × ReIDMatcher E :=
  match scanTracks cosine m.camera_network track_embedding timestamp camera_id
      m.global_tracks none with
  | none => newGlobal m track_embedding timestamp camera_id
  | some (best_match_id, min_dist) =>
    if min_dist < m.threshold then
      (best_match_id, mergedState m best_match_id track_embedding timestamp camera_id)
    else newGlobal m track_embedding timestamp camera_id

/-- The surviving candidates of one `match_track` call, in iteration order:
the claim's "surviving candidate identities". -/
def survivors {E : Type} (m : ReIDMatcher E) (timestamp : Option ℚ)
    (camera_id : Option Cam) : List (ℕ × GlobalTrack E) :=
  m.global_tracks.filter fun p => survives m.camera_network timestamp camera_id p.2

/-- The claim's candidate scoring: the minimum, over surviving candidates, of
the per-identity minimum cosine distance. -/
def minScore {E : Type} (cosine : E → E → ℚ) (track_embedding : E)
    (l : List (ℕ × GlobalTrack E)) : Option ℚ :=
  (l.map fun p => distToTrack cosine track_embedding p.2.embeddings).min?

end ReIDMatcher

/-! ## src/alerts/alert_manager.py -/

/-- One value of the per-track dict `active_intrusions[track_id]`:
`{start_time: float, confirmed: bool}`. -/
structure IntrusionEntry where
  start_time : ℚ
  confirmed : Bool
deriving Repr, DecidableEq

/-- One event as passed to `log_event`.  Only the fields the control flow
depends on are modelled (`event_type`, `zone_id`, `duration`); `video_id`,
`track_id`, `class_name`, `frame_id`, `t`, `t_sync` are pass-through values
that never influence the state machine. -/
structure AlertEvent where
  event_type : String
  zone_id : String
  duration : ℚ
deriving Repr, DecidableEq

namespace AlertManager

/-- Zone identifiers as used by the alert manager. -/
abbrev ZoneId := String

/-- The per-track zone table `active_intrusions[track_id]`, a Python dict in
insertion order. -/
abbrev ZoneTable := List (ZoneId × IntrusionEntry)

/-- Dict lookup `self.active_intrusions[track_id].get(zone_id)`. -/
def lookupEntry (table : ZoneTable) (z : ZoneId) : Option IntrusionEntry :=
  (table.find? fun p => p.1 = z).map Prod.snd

/-- In-place `confirmed = True` on the entry at key `z`. -/
def setConfirmed (table : ZoneTable) (z : ZoneId) : ZoneTable :=
  table.map fun p => if p.1 = z then (p.1, ⟨p.2.start_time, true⟩) else p

/-- One iteration of the first loop of `AlertManager.update`
(lines 51–90): a new zone creates a PENDING entry — immediately confirmed
with duration 0 when `min_duration <= 0` — and a continuing zone confirms
once `current_time - start_time >= min_duration` and it is not yet
confirmed.  (Entry creation and the immediate-confirmation write that
follows it in the source are fused into building the entry directly.) -/
def stepZone (min_duration current_time : ℚ) (acc : ZoneTable × List AlertEvent)
    (zone_id : ZoneId) : ZoneTable × List AlertEvent :=
  let (table, events) := acc
  match lookupEntry table zone_id with
  | none =>
    if min_duration ≤ 0 then
      (table ++ [(zone_id, ⟨current_time, true⟩)],
       events ++ [⟨"intrusion_confirmed", zone_id, 0⟩])
    else
      (table ++ [(zone_id, ⟨current_time, false⟩)], events)
  | some entry =>
    let duration := current_time - entry.start_time
    if duration ≥ min_duration ∧ entry.confirmed = false then
      (setConfirmed table zone_id,
       events ++ [⟨"intrusion_confirmed", zone_id, duration⟩])
    else (table, events)

/-- The second loop of `AlertManager.update` (lines 93–112): every tracked
zone absent from the current set is deleted, emitting `intrusion_ended`
exactly for the confirmed ones, in table order. -/
def endAbsent (current_time : ℚ) (zone_ids : List ZoneId) (table : ZoneTable) :
    ZoneTable × List AlertEvent :=
  (table.filter fun p => decide (p.1 ∈ zone_ids),
   (table.filter fun p => !decide (p.1 ∈ zone_ids) && p.2.confirmed).map
     fun p => ⟨"intrusion_ended", p.1, current_time - p.2.start_time⟩)

/-- `AlertManager.update` restricted to one track: the evolution of the
per-track zone table together with the events logged during the call.
(`active_intrusions` maps each track id to such a table independently;
`update` only ever touches the entry of its `track_id` argument.) -/
def update (min_duration : ℚ) (table : ZoneTable) (zone_ids : List ZoneId)
    (frame_time : ℚ) : ZoneTable × List AlertEvent :=
  let (t1, evs1) := zone_ids.foldl (stepZone min_duration frame_time) (table, [])
  let (t2, evs2) := endAbsent frame_time zone_ids t1
  (t2, evs1 ++ evs2)

/-- A whole run of `update` calls on one track, from a given initial table,
collecting all logged events in order. -/
def runUpdates (min_duration : ℚ) : List (List ZoneId × ℚ) → ZoneTable →
    ZoneTable × List AlertEvent
  | [], table => (table, [])
  | (zone_ids, t) :: rest, table =>
    let r1 := update min_duration table zone_ids t
    let r2 := runUpdates min_duration rest r1.1
    (r2.1, r1.2 ++ r2.2)

end AlertManager

/-! ## src/zones/zone_manager.py (camera filtering) -/

namespace ZoneManager

/-- Python strings as character lists, so that the character-level
normalization of camera ids stays kernel-computable. -/
abbrev PyStr := List Char

/-- Python `str.strip()`: whitespace removed from both ends. -/
def pyStrip (s : PyStr) : PyStr :=
  ((s.dropWhile Char.isWhitespace).reverse.dropWhile Char.isWhitespace).reverse

/-- Python `str.upper()` (ASCII-relevant part). -/
def pyUpper (s : PyStr) : PyStr := s.map Char.toUpper

/-- The namespace token `"CAMERA_"` (length 7). -/
def camPrefixChars : PyStr := ['C', 'A', 'M', 'E', 'R', 'A', '_']

/-- `ZoneManager._normalize_camera_id`: strip, uppercase a copy, and when the
uppercased id starts with `CAMERA_` drop those 7 characters from the
*original-case* stripped id.  Note the source never case-folds the value it
returns. -/
def normalize_camera_id : Option PyStr → Option PyStr
  | none => none
  | some camera_id =>
    let cam := pyStrip camera_id
    let cam_up := pyUpper cam
    if camPrefixChars.isPrefixOf cam_up then some (cam.drop 7) else some cam

/-- `ZoneManager._camera_matches`: a `None` query matches everything,
otherwise the two normalized ids are compared for equality. -/
def camera_matches (zone_camera_id query_camera_id : Option PyStr) : Bool :=
  match query_camera_id with
  | none => true
  | some _ => decide (normalize_camera_id zone_camera_id =
      normalize_camera_id query_camera_id)

/-- `ZoneManager.get_zones_for_camera`: the zones whose camera matches the
query (each zone reduced to its `(zone_id, camera_id)` pair, the only fields
the filter reads). -/
def get_zones_for_camera (zones : List (PyStr × Option PyStr))
    (camera_id : Option PyStr) : List (PyStr × Option PyStr) :=
  zones.filter fun z => camera_matches z.2 camera_id

end ZoneManager

/-! ## src/pipeline/global_matching.py -/

/-- One loaded trajectory record as read by `run_global_matching`:
`class_name` and `embeddings` may be absent in the JSON, and `timestamp` is
the first frame's `t_sync` (falling back to `t`, then `0.0`). -/
structure TrajTrack (E : Type) where
  track_id : String
  class_name : Option String
  embeddings : Option (List E)
  timestamp : ℚ
deriving Repr, DecidableEq

/-- Stable insertion of `a` after every element `b` with `le b a` — the
building block of the model of Python's stable `list.sort`. -/
def insertSorted {α : Type} (le : α → α → Bool) (a : α) : List α → List α
  | [] => [a]
  | b :: l => if le b a then b :: insertSorted le a l else a :: b :: l

/-- Python's stable ascending `list.sort(key=...)`, modelled as stable
insertion sort: elements are inserted left to right, each landing after all
earlier elements with an equal-or-smaller key. -/
def pySortBy {α : Type} (le : α → α → Bool) (l : List α) : List α :=
  l.foldl (fun acc a => insertSorted le a acc) []

namespace GlobalMatching

/-- Lines 52–58 of global_matching.py: a track enters `all_tracks` iff its
`class_name` is absent or `"person"` (any other class is skipped by
`continue`) and it has a present, non-empty `embeddings` list. -/
def includeTrack {E : Type} (track : TrajTrack E) : Bool :=
  (match track.class_name with
   | none => true
   | some c => decide (c = "person")) &&
  (match track.embeddings with
   | none => false
   | some l => !l.isEmpty)

/-- Lines 87–104 of global_matching.py: feed each selected track's mean
embedding (over its first `max_embeddings_per_track` embeddings, computed by
the external `np.mean`, here the parameter `meanEmb`) to the matcher in
order, pairing each track with the `global_id` written back onto it. -/
def goMatch {E : Type} (cosine : E → E → ℚ) (meanEmb : List E → E)
    (max_embeddings_per_track : ℕ) (m : ReIDMatcher E) :
    List (TrajTrack E) → List (TrajTrack E × ℕ)
  | [] => []
  | track :: rest =>
    let emb := meanEmb ((track.embeddings.getD []).take max_embeddings_per_track)
    let r := ReIDMatcher.match_track cosine m emb (some track.timestamp) none
    (track, r.1) :: goMatch cosine meanEmb max_embeddings_per_track r.2 rest

/-- `run_global_matching` (matching core): filter the loaded tracks, sort
them chronologically by first-appearance timestamp, and run the matcher over
them with a fresh `ReIDMatcher(threshold)` (no camera network, no camera id
passed).  Returns each participating track with its assigned `global_id`. -/
def run_global_matching {E : Type} (cosine : E → E → ℚ) (meanEmb : List E → E)
    (threshold : ℚ) (max_embeddings_per_track : ℕ) (tracks : List (TrajTrack E)) :
    List (TrajTrack E × ℕ) :=
  let all_tracks := tracks.filter includeTrack
  let sorted := pySortBy (fun a b => decide (a.timestamp ≤ b.timestamp)) all_tracks
  goMatch cosine meanEmb max_embeddings_per_track
    (ReIDMatcher.init threshold none) sorted

end GlobalMatching

/-! ## src/utils/event_enricher.py (deduplication) -/

/-- One record of an event's `merged_from` list, as appended by
`_dedup_overlapping_zone_events` (lines 259–267). -/
structure MergedFrom where
  video_id : Option String
  track_id : Option String
  zone_id : Option String
  t_sync : Option ℚ
  frame_id : Option ℕ
deriving Repr, DecidableEq

/-- One JSONL event as read by the deduplication pass; every field the code
reads may be absent.  `video_id` is the event's camera. -/
structure DedupEvent where
  global_id : Option ℕ
  event_type : Option String
  t_sync : Option ℚ
  video_id : Option String
  track_id : Option String
  zone_id : Option String
  frame_id : Option ℕ
  merged_from : List MergedFrom
deriving Repr, DecidableEq

namespace EventEnricher

/-- `_normalize_zone_name`: strip + lowercase, empty becomes `None`. -/
def normalize_zone_name : Option String → Option String
  | none => none
  | some name =>
    let s := name.trim.toLower
    if s.isEmpty then none else some s

/-- `zone_key` (lines 203–209): the normalized zone name from the zones
document when available, otherwise the `zone_id` itself; `None` without a
`zone_id`.  The zones document is modelled as its `zone_id → name` map, the
only fields this code reads. -/
def zone_key (zones : List (String × Option String)) (e : DedupEvent) :
    Option String :=
  match e.zone_id with
  | none => none
  | some zid =>
    let name :=
      match zones.find? (fun q => q.1 = zid) with
      | some q => normalize_zone_name q.2
      | none => none
    some (name.getD zid)

/-- `is_adjacent` (lines 211–221): identical cameras always count; otherwise
a configured, non-open camera network must declare them adjacent — an absent
or open network yields false. -/
def is_adjacent (camera_network : Option CameraNetwork) (cam_a cam_b : String) :
    Bool :=
  if cam_a = cam_b then true
  else
    match camera_network with
    | none => false
    | some net => if net.is_open then false else net.are_adjacent cam_a cam_b

/-- The sort key of line 225: `(t_sync or +inf, original index)`, compared
lexicographically. -/
def sortKeyLe (a b : ℕ × DedupEvent) : Bool :=
  match a.2.t_sync, b.2.t_sync with
  | some x, some y => if x = y then decide (a.1 ≤ b.1) else decide (x < y)
  | some _, none => true
  | none, some _ => false
  | none, none => decide (a.1 ≤ b.1)

/-- The final re-sort key of line 277: `t_sync or +inf` (stable). -/
def finalLe (a b : DedupEvent) : Bool :=
  match a.t_sync, b.t_sync with
  | some x, some y => decide (x ≤ y)
  | some _, none => true
  | none, some _ => false
  | none, none => true

/-- `last_by_key[key] = len(out) - 1`: assoc-list dict write. -/
def upsertKey (l : List ((ℕ × String × String) × ℕ)) (k : ℕ × String × String)
    (v : ℕ) : List ((ℕ × String × String) × ℕ) :=
  if (l.find? fun q => q.1 = k).isSome then
    l.map fun q => if q.1 = k then (q.1, v) else q
  else l ++ [(k, v)]

/-- The single forward merge pass of `_dedup_overlapping_zone_events`
(lines 227–274), over the time-sorted events: an event missing any of
`global_id`, `event_type`, `t_sync`, camera or zone key passes through
without touching `last_by_key`; otherwise it is compared against the
retained representative recorded for its `(global_id, event_type, zone_key)`
key and either absorbed into it (within the window and adjacent cameras) or
appended as the key's new representative. -/
def dedupLoop (zones : List (String × Option String))
    (net : Option CameraNetwork) (w : ℚ) :
    List DedupEvent → List DedupEvent → List ((ℕ × String × String) × ℕ) →
    List DedupEvent
  | [], out, _ => out
  | e :: rest, out, last_by_key =>
    match e.global_id, e.event_type, e.t_sync, e.video_id, zone_key zones e with
    | some gid, some ty, some ts, some cam, some zk =>
      let key := (gid, ty, zk)
      match last_by_key.find? fun q => q.1 = key with
      | none =>
        dedupLoop zones net w rest (out ++ [e]) (upsertKey last_by_key key out.length)
      | some qp =>
        match out.get? qp.2 with
        | none =>
          dedupLoop zones net w rest (out ++ [e]) (upsertKey last_by_key key out.length)
        | some prev =>
          match prev.t_sync, prev.video_id with
          | some prev_t, some prev_cam =>
            if (if ts - prev_t < 0 then -(ts - prev_t) else ts - prev_t) ≤ w
                ∧ is_adjacent net prev_cam cam = true then
              let prev' : DedupEvent :=
                { prev with
                    t_sync := if ts < prev_t then some ts else prev.t_sync,
                    merged_from := prev.merged_from ++
                      [⟨some cam, e.track_id, e.zone_id, some ts, e.frame_id⟩] }
              dedupLoop zones net w rest (out.set qp.2 prev') last_by_key
            else
              dedupLoop zones net w rest (out ++ [e])
                (upsertKey last_by_key key out.length)
          | _, _ =>
            dedupLoop zones net w rest (out ++ [e])
              (upsertKey last_by_key key out.length)
    | _, _, _, _, _ => dedupLoop zones net w rest (out ++ [e]) last_by_key

/-- `_dedup_overlapping_zone_events`: sort by `(t_sync, input order)`, run
the merge pass, then re-sort the survivors by `t_sync`. -/
def dedup_overlapping_zone_events (zones : List (String × Option String))
    (net : Option CameraNetwork) (events : List DedupEvent) (w : ℚ) :
    List DedupEvent :=
  let indexed := events.enum
  let sortedPairs := pySortBy sortKeyLe indexed
  let out := dedupLoop zones net w (sortedPairs.map Prod.snd) [] []
  pySortBy finalLe out

/-- An event carrying every field the merge pass needs (`global_id`,
`event_type`, `t_sync`, camera, `zone_id` all present) — statement shorthand
for the dedup theorems. -/
def fullEvent (gid : ℕ) (ty : String) (t : ℚ) (cam : String) (tr : Option String)
    (z : String) (f : Option ℕ) (mf : List MergedFrom) : DedupEvent :=
  ⟨some gid, some ty, some t, some cam, tr, some z, f, mf⟩

end EventEnricher

/-! ## Theorems -/

/-- Gating is a hard filter: the candidate scan over any track list equals
the scan, with gating disabled, over the list of candidates that pass the
gate. -/
theorem scan_eq_scan_filter {E : Type} (cosine : E → E → ℚ)
    (net : Option CameraNetwork) (emb : E) (ts : Option ℚ) (cam : Option Cam)
    (l : List (ℕ × GlobalTrack E)) :
    ∀ best, ReIDMatcher.scanTracks cosine net emb ts cam l best =
      ReIDMatcher.scanTracks cosine none emb ts cam
        (l.filter fun p => ReIDMatcher.survives net ts cam p.2) best := by
  induction l with
  | nil => intro best; rfl
  | cons p rest ih =>
    intro best
    obtain ⟨gid, data⟩ := p
    rw [List.filter_cons]
    by_cases hs : ReIDMatcher.survives net ts cam data = true
    · simp only [hs, if_true]
      rw [ReIDMatcher.scanTracks, ReIDMatcher.scanTracks, if_pos hs,
        if_pos (show ReIDMatcher.survives none ts cam data = true from rfl)]
      exact ih _
    · simp only [hs, if_false]
      rw [ReIDMatcher.scanTracks, if_neg hs]
      exact ih best

/-- The ungated candidate scan, started on a provisional best `b`, succeeds
and returns the running minimum of `b.2` and all candidate scores, attained
either by `b` itself or by some candidate in the list. -/
theorem scan_go_spec {E : Type} (cosine : E → E → ℚ) (emb : E) (ts : Option ℚ)
    (cam : Option Cam) (l : List (ℕ × GlobalTrack E)) :
    ∀ b : ℕ × ℚ, ∃ g d,
      ReIDMatcher.scanTracks cosine none emb ts cam l (some b) = some (g, d) ∧
      d = (l.map fun p => ReIDMatcher.distToTrack cosine emb p.2.embeddings).foldl min b.2 ∧
      ((g, d) = b ∨ ∃ p ∈ l, p.1 = g ∧
        ReIDMatcher.distToTrack cosine emb p.2.embeddings = d) := by
  induction l with
  | nil =>
    intro b
    exact ⟨b.1, b.2, rfl, rfl, Or.inl rfl⟩
  | cons p rest ih =>
    intro b
    obtain ⟨gid, data⟩ := p
    rw [ReIDMatcher.scanTracks,
      if_pos (show ReIDMatcher.survives none ts cam data = true from rfl)]
    set dist := ReIDMatcher.distToTrack cosine emb data.embeddings with hdist
    by_cases hlt : dist < b.2
    · obtain ⟨g, d, hscan, hd, hmem⟩ := ih (gid, dist)
      refine ⟨g, d, by simpa [hlt] using hscan, ?_, ?_⟩
      · rw [hd]
        simp only [List.map_cons, List.foldl_cons]
        rw [min_eq_right (le_of_lt hlt)]
      · rcases hmem with heq | ⟨q, hq, hq1, hq2⟩
        · exact Or.inr ⟨(gid, data), List.mem_cons_self _ _,
            (congrArg Prod.fst heq).symm, (congrArg Prod.snd heq).symm⟩
        · exact Or.inr ⟨q, List.mem_cons_of_mem _ hq, hq1, hq2⟩
    · obtain ⟨g, d, hscan, hd, hmem⟩ := ih b
      refine ⟨g, d, by simpa [hlt] using hscan, ?_, ?_⟩
      · rw [hd]
        simp only [List.map_cons, List.foldl_cons]
        rw [min_eq_left (not_lt.mp hlt)]
      · rcases hmem with heq | ⟨q, hq, hq1, hq2⟩
        · exact Or.inl heq
        · exact Or.inr ⟨q, List.mem_cons_of_mem _ hq, hq1, hq2⟩

/-- The ungated candidate scan started empty returns exactly the minimum
score, attained by some listed candidate; it fails only on an empty list. -/
theorem scan_none_spec {E : Type} (cosine : E → E → ℚ) (emb : E)
    (ts : Option ℚ) (cam : Option Cam) (l : List (ℕ × GlobalTrack E)) :
    (l = [] → ReIDMatcher.scanTracks cosine none emb ts cam l none = none) ∧
    (l ≠ [] → ∃ g d,
      ReIDMatcher.scanTracks cosine none emb ts cam l none = some (g, d) ∧
      ReIDMatcher.minScore cosine emb l = some d ∧
      ∃ p ∈ l, p.1 = g ∧ ReIDMatcher.distToTrack cosine emb p.2.embeddings = d) := by
  constructor
  · rintro rfl; rfl
  · intro hne
    match l with
    | [] => exact absurd rfl hne
    | q :: rest =>
      obtain ⟨gid, data⟩ := q
      rw [ReIDMatcher.scanTracks,
        if_pos (show ReIDMatcher.survives none ts cam data = true from rfl)]
      obtain ⟨g, d, hscan, hd, hmem⟩ := scan_go_spec cosine emb ts cam rest
        (gid, ReIDMatcher.distToTrack cosine emb data.embeddings)
      refine ⟨g, d, hscan, ?_, ?_⟩
      · rw [ReIDMatcher.minScore]
        simp only [List.map_cons, List.min?_cons', hd]
      · rcases hmem with heq | ⟨p, hp, hp1, hp2⟩
        · exact ⟨(gid, data), List.mem_cons_self _ _,
            (congrArg Prod.fst heq).symm, (congrArg Prod.snd heq).symm⟩
        · exact ⟨p, List.mem_cons_of_mem _ hp, hp1, hp2⟩

/-- Claim C1: in every `match_track` call, when the minimum over surviving
candidates of the per-identity minimum cosine distance is strictly below the
threshold, the embedding is appended to a minimal-distance surviving identity
and its existing `global_id` is returned; otherwise (no surviving candidate,
or minimum not below threshold) a new identity seeded with this embedding is
created under the next sequential id and that id is returned — in particular
the very first call on a fresh matcher returns `global_id = 1`. -/
theorem c1_match_track_contract {E : Type} (cosine : E → E → ℚ)
    (m : ReIDMatcher E) (emb : E) (ts : Option ℚ) (cam : Option Cam) :
    (∀ d, ReIDMatcher.minScore cosine emb (m.survivors ts cam) = some d →
      d < m.threshold →
      ∃ p ∈ m.survivors ts cam,
        ReIDMatcher.distToTrack cosine emb p.2.embeddings = d ∧
        ReIDMatcher.match_track cosine m emb ts cam =
          (p.1, ReIDMatcher.mergedState m p.1 emb ts cam)) ∧
    (∀ d, ReIDMatcher.minScore cosine emb (m.survivors ts cam) = some d →
      ¬ d < m.threshold →
      ReIDMatcher.match_track cosine m emb ts cam =
        (m.next_global_id, ReIDMatcher.mk m.threshold (m.global_tracks ++ [(m.next_global_id, ⟨[emb], ts, cam⟩)]) (m.next_global_id + 1) m.camera_network)) ∧
    (ReIDMatcher.minScore cosine emb (m.survivors ts cam) = none →
      ReIDMatcher.match_track cosine m emb ts cam =
        (m.next_global_id, ReIDMatcher.mk m.threshold (m.global_tracks ++ [(m.next_global_id, ⟨[emb], ts, cam⟩)]) (m.next_global_id + 1) m.camera_network)) ∧
    (∀ th net₀,
      (ReIDMatcher.match_track cosine (ReIDMatcher.init th net₀) emb ts cam).1 = 1) := by
  have hfilter := scan_eq_scan_filter cosine m.camera_network emb ts cam
    m.global_tracks none
  have hsurv : (m.global_tracks.filter fun p =>
      ReIDMatcher.survives m.camera_network ts cam p.2) = m.survivors ts cam := rfl
  rw [hsurv] at hfilter
  refine ⟨?_, ?_, ?_, ?_⟩
  · intro d hmin hlt
    have hne : m.survivors ts cam ≠ [] := by
      intro hnil
      rw [hnil] at hmin
      exact Option.noConfusion hmin
    obtain ⟨g, d', hscan, hmin', p, hp, hp1, hp2⟩ :=
      (scan_none_spec cosine emb ts cam (m.survivors ts cam)).2 hne
    have hdd : d' = d := Option.some.inj (hmin'.symm.trans hmin)
    subst hdd
    refine ⟨p, hp, hp2, ?_⟩
    rw [ReIDMatcher.match_track, hfilter, hscan]
    simp only [if_pos hlt, hp1]
  · intro d hmin hnlt
    have hne : m.survivors ts cam ≠ [] := by
      intro hnil
      rw [hnil] at hmin
      exact Option.noConfusion hmin
    obtain ⟨g, d', hscan, hmin', _, _, _, _⟩ :=
      (scan_none_spec cosine emb ts cam (m.survivors ts cam)).2 hne
    have hdd : d' = d := Option.some.inj (hmin'.symm.trans hmin)
    subst hdd
    rw [ReIDMatcher.match_track, hfilter, hscan]
    simp only [if_neg hnlt]
    rfl
  · intro hmin
    have hnil : m.survivors ts cam = [] := by
      cases hl : m.survivors ts cam with
      | nil => rfl
      | cons q rest =>
        rw [hl] at hmin
        exact absurd hmin (by simp [ReIDMatcher.minScore, List.min?_cons'])
    rw [ReIDMatcher.match_track, hfilter, hnil]
    rfl
  · intro th net₀
    rfl

/-- Witness for C1 at a concrete input: a matcher holding one identity with a
stored embedding at distance `0 < threshold = 1` merges into it and returns
its id. -/
theorem c1_match_track_contract_witness :
    ∃ p ∈ ReIDMatcher.survivors
        (ReIDMatcher.mk 1 [(1, GlobalTrack.mk [()] none none)] 2 none) none none,
      ReIDMatcher.distToTrack (fun _ _ => (0 : ℚ)) () p.2.embeddings = 0 ∧
      ReIDMatcher.match_track (fun _ _ => (0 : ℚ))
          (ReIDMatcher.mk 1 [(1, GlobalTrack.mk [()] none none)] 2 none) () none none =
        (p.1, ReIDMatcher.mergedState
          (ReIDMatcher.mk 1 [(1, GlobalTrack.mk [()] none none)] 2 none) p.1 () none none) :=
  (c1_match_track_contract (fun _ _ => (0 : ℚ))
      (ReIDMatcher.mk 1 [(1, GlobalTrack.mk [()] none none)] 2 none)
      () none none).1 0 (by decide) (by norm_num)

/-- Claim C2: camera-network gating is a hard filter applied before distance —
the candidate scan over the stored identities equals the ungated scan over the
surviving identities only — and, concretely, when gating excludes the single
best-distance candidate while a worse surviving candidate is still below
threshold, `match_track` returns the worse candidate's existing id:
identity 1 (distance 1, best) has a disallowed `C → B` transition, identity 2
(distance 2 < threshold 3) has the allowed `A → B` edge, and the call
returns 2. -/
theorem c2_gating_hard_filter :
    (∀ (E : Type) (cosine : E → E → ℚ) (m : ReIDMatcher E) (emb : E)
        (ts : Option ℚ) (cam : Option Cam) (best : Option (ℕ × ℚ)),
      ReIDMatcher.scanTracks cosine m.camera_network emb ts cam m.global_tracks best =
        ReIDMatcher.scanTracks cosine none emb ts cam (m.survivors ts cam) best) ∧
    (let cf : ℕ → ℕ → ℚ := fun _ b => if b = 1 then 1 else if b = 2 then 2 else 9
     let netC := CameraNetwork.mk [CameraEdge.mk "A" "B" none none] none true
     let mC := ReIDMatcher.mk 3
       [(1, GlobalTrack.mk [1] none (some "C")),
        (2, GlobalTrack.mk [2] none (some "A"))] 3 (some netC)
     ReIDMatcher.survives (some netC) (some 5) (some "B")
        (GlobalTrack.mk [(1 : ℕ)] none (some "C")) = false ∧
     ReIDMatcher.survives (some netC) (some 5) (some "B")
        (GlobalTrack.mk [(2 : ℕ)] none (some "A")) = true ∧
     ReIDMatcher.distToTrack cf 0 [1] < ReIDMatcher.distToTrack cf 0 [2] ∧
     ReIDMatcher.distToTrack cf 0 [2] < mC.threshold ∧
     (ReIDMatcher.match_track cf mC 0 (some 5) (some "B")).1 = 2) := by
  constructor
  · intro E cosine m emb ts cam best
    exact scan_eq_scan_filter cosine m.camera_network emb ts cam m.global_tracks best
  · exact ⟨by decide, by decide, by decide, by decide, by decide⟩

/-- Claim C9: every `match_track` call preserves the invariant that each
stored identity's buffer holds at most 10 embeddings; a buffer below capacity
just gets the embedding appended, and a full buffer of 10 evicts its oldest
entry while keeping length 10. -/
theorem c9_buffer_bound {E : Type} (cosine : E → E → ℚ) (m : ReIDMatcher E)
    (emb : E) (ts : Option ℚ) (cam : Option Cam)
    (hinv : ∀ p ∈ m.global_tracks, p.2.embeddings.length ≤ 10) :
    (∀ p ∈ (ReIDMatcher.match_track cosine m emb ts cam).2.global_tracks,
        p.2.embeddings.length ≤ 10) ∧
    (∀ buf : List E, buf.length < 10 → ReIDMatcher.appendEvict emb buf = buf ++ [emb]) ∧
    (∀ buf : List E, buf.length = 10 →
        ReIDMatcher.appendEvict emb buf = buf.tail ++ [emb] ∧
        (ReIDMatcher.appendEvict emb buf).length = 10) := by
  have hunfold : ∀ buf : List E, ReIDMatcher.appendEvict emb buf =
      if (buf ++ [emb]).length > 10 then (buf ++ [emb]).tail else buf ++ [emb] :=
    fun _ => rfl
  have hlen : ∀ buf : List E, buf.length ≤ 10 →
      (ReIDMatcher.appendEvict emb buf).length ≤ 10 := by
    intro buf hb
    rw [hunfold]
    by_cases hgt : (buf ++ [emb]).length > 10
    · rw [if_pos hgt]
      simp only [List.length_tail, List.length_append, List.length_singleton]
      omega
    · rw [if_neg hgt]
      simp only [not_lt, List.length_append, List.length_singleton] at hgt
      simpa using hgt
  refine ⟨?_, ?_, ?_⟩
  · intro p hp
    rcases hscan : ReIDMatcher.scanTracks cosine m.camera_network emb ts cam
        m.global_tracks none with _ | ⟨bg, bd⟩
    · have hmt : ReIDMatcher.match_track cosine m emb ts cam =
          ReIDMatcher.newGlobal m emb ts cam := by
        rw [ReIDMatcher.match_track, hscan]
      rw [hmt] at hp
      simp only [ReIDMatcher.newGlobal, List.mem_append, List.mem_singleton] at hp
      rcases hp with hp | hp
      · exact hinv p hp
      · subst hp; simp
    · have hmt : ReIDMatcher.match_track cosine m emb ts cam =
          (if bd < m.threshold then (bg, ReIDMatcher.mergedState m bg emb ts cam)
           else ReIDMatcher.newGlobal m emb ts cam) := by
        rw [ReIDMatcher.match_track, hscan]
      rw [hmt] at hp
      by_cases hbd : bd < m.threshold
      · rw [if_pos hbd] at hp
        simp only [ReIDMatcher.mergedState, ReIDMatcher.setTrack, List.mem_map] at hp
        obtain ⟨q, hq, hpq⟩ := hp
        by_cases hq1 : q.1 = bg
        · rw [if_pos hq1] at hpq
          subst hpq
          exact hlen _ (hinv q hq)
        · rw [if_neg hq1] at hpq
          subst hpq
          exact hinv q hq
      · rw [if_neg hbd] at hp
        simp only [ReIDMatcher.newGlobal, List.mem_append, List.mem_singleton] at hp
        rcases hp with hp | hp
        · exact hinv p hp
        · subst hp; simp
  · intro buf hb
    rw [hunfold]
    have hng : ¬ (buf ++ [emb]).length > 10 := by
      simp only [List.length_append, List.length_singleton]
      omega
    rw [if_neg hng]
  · intro buf hb
    have hne : buf ≠ [] := by intro h; rw [h] at hb; simp at hb
    have htail : (buf ++ [emb]).tail = buf.tail ++ [emb] := by
      cases buf with
      | nil => exact absurd rfl hne
      | cons a l => rfl
    have hgt : (buf ++ [emb]).length > 10 := by simp [hb]
    constructor
    · rw [hunfold, if_pos hgt]
      exact htail
    · rw [hunfold, if_pos hgt, htail]
      have h9 : buf.tail.length = 9 := by
        cases buf with
        | nil => exact absurd rfl hne
        | cons a l => simpa using Nat.succ_injective hb
      simp [h9]

/-- Witness for C9 at a concrete input: a full buffer of 10 evicts its oldest
entry and stays at length 10. -/
theorem c9_buffer_bound_witness :
    ReIDMatcher.appendEvict () (List.replicate 10 ()) =
      (List.replicate 10 ()).tail ++ [()] ∧
    (ReIDMatcher.appendEvict () (List.replicate 10 ())).length = 10 :=
  (c9_buffer_bound (fun _ _ => (0 : ℚ)) (ReIDMatcher.mk 1 [] 1 none) () none none
    (by simp)).2.2 (List.replicate 10 ()) (by decide)

/-- Appending an entry under a different key leaves a dict lookup
unchanged. -/
theorem lookup_append_ne (table : AlertManager.ZoneTable) (w z : String)
    (e : IntrusionEntry) (hwz : w ≠ z) :
    AlertManager.lookupEntry (table ++ [(w, e)]) z =
      AlertManager.lookupEntry table z := by
  rw [AlertManager.lookupEntry, AlertManager.lookupEntry, List.find?_append]
  cases h : table.find? (fun p => p.1 = z) with
  | some p => rfl
  | none =>
    have : List.find? (fun p => p.1 = z) [(w, e)] = none := by
      simp [List.find?, hwz]
    simp [this]

/-- Confirming the entry at a different key leaves a dict lookup
unchanged. -/
theorem lookup_setConfirmed_ne (table : AlertManager.ZoneTable) (w z : String)
    (hwz : w ≠ z) :
    AlertManager.lookupEntry (AlertManager.setConfirmed table w) z =
      AlertManager.lookupEntry table z := by
  induction table with
  | nil => rfl
  | cons p rest ih =>
    rw [AlertManager.setConfirmed, List.map_cons]
    by_cases hp : p.1 = w
    · rw [if_pos hp]
      rw [AlertManager.lookupEntry, AlertManager.lookupEntry, List.find?_cons,
        List.find?_cons]
      have hz : (decide (p.1 = z)) = false := by simp [hp, hwz]
      simp only [hz]
      exact ih
    · rw [if_neg hp]
      rw [AlertManager.lookupEntry, AlertManager.lookupEntry, List.find?_cons,
        List.find?_cons]
      cases hz : (decide (p.1 = z)) with
      | true => rfl
      | false => exact ih

/-- One `stepZone` iteration on a different zone does not change the lookup
of zone `z`. -/
theorem lookup_stepZone_ne (md t : ℚ) (acc : AlertManager.ZoneTable × List AlertEvent)
    (w z : String) (hwz : w ≠ z) :
    AlertManager.lookupEntry (AlertManager.stepZone md t acc w).1 z =
      AlertManager.lookupEntry acc.1 z := by
  obtain ⟨table, events⟩ := acc
  rw [AlertManager.stepZone]
  cases hl : AlertManager.lookupEntry table w with
  | none =>
    by_cases hmd : md ≤ 0
    · simp only [hmd, if_true]
      exact lookup_append_ne table w z _ hwz
    · simp only [hmd, if_false]
      exact lookup_append_ne table w z _ hwz
  | some entry =>
    by_cases hc : t - entry.start_time ≥ md ∧ entry.confirmed = false
    · simp only [hc, and_self, if_true]
      exact lookup_setConfirmed_ne table w z hwz
    · simp only [hc, if_false]

/-- The first intrusion loop only appends to the event list. -/
theorem phase1_events_mono (md t : ℚ) :
    ∀ (zs : List String) (acc : AlertManager.ZoneTable × List AlertEvent),
      ∃ suf, (zs.foldl (AlertManager.stepZone md t) acc).2 = acc.2 ++ suf := by
  intro zs
  induction zs with
  | nil => exact fun acc => ⟨[], by simp⟩
  | cons w rest ih =>
    intro acc
    rw [List.foldl_cons]
    obtain ⟨suf, hsuf⟩ := ih (AlertManager.stepZone md t acc w)
    obtain ⟨table, events⟩ := acc
    rw [AlertManager.stepZone] at hsuf ⊢
    cases hl : AlertManager.lookupEntry table w with
    | none =>
      rw [hl] at hsuf
      by_cases hmd : md ≤ 0
      · simp only [hmd, if_true] at hsuf ⊢
        exact ⟨AlertEvent.mk "intrusion_confirmed" w 0 :: suf, by rw [hsuf]; simp⟩
      · simp only [hmd, if_false] at hsuf ⊢
        exact ⟨suf, by rw [hsuf]⟩
    | some entry =>
      rw [hl] at hsuf
      by_cases hc : t - entry.start_time ≥ md ∧ entry.confirmed = false
      · simp only [hc, and_self, if_true] at hsuf ⊢
        exact ⟨AlertEvent.mk "intrusion_confirmed" w (t - entry.start_time) :: suf,
          by rw [hsuf]; simp⟩
      · simp only [hc, if_false] at hsuf ⊢
        exact ⟨suf, hsuf⟩

/-- Every event logged by the first intrusion loop is an
`intrusion_confirmed` event. -/
theorem phase1_events_confirmed (md t : ℚ) :
    ∀ (zs : List String) (acc : AlertManager.ZoneTable × List AlertEvent),
      (∀ ev ∈ acc.2, ev.event_type = "intrusion_confirmed") →
      ∀ ev ∈ (zs.foldl (AlertManager.stepZone md t) acc).2,
        ev.event_type = "intrusion_confirmed" := by
  intro zs
  induction zs with
  | nil => exact fun acc h => h
  | cons w rest ih =>
    intro acc hacc
    rw [List.foldl_cons]
    refine ih _ ?_
    obtain ⟨table, events⟩ := acc
    rw [AlertManager.stepZone]
    cases hl : AlertManager.lookupEntry table w with
    | none =>
      by_cases hmd : md ≤ 0
      · simp only [hmd, if_true]
        intro ev hev
        rcases List.mem_append.mp hev with h | h
        · exact hacc ev h
        · rw [List.mem_singleton.mp h]
      · simp only [hmd, if_false]
        exact hacc
    | some entry =>
      by_cases hc : t - entry.start_time ≥ md ∧ entry.confirmed = false
      · simp only [hc, and_self, if_true]
        intro ev hev
        rcases List.mem_append.mp hev with h | h
        · exact hacc ev h
        · rw [List.mem_singleton.mp h]
      · simp only [hc, if_false]
        exact hacc

/-- `stepZone` equation: new zone, immediate-confirmation mode. -/
theorem stepZone_new_confirm (md t : ℚ) (table : AlertManager.ZoneTable)
    (events : List AlertEvent) (w : String)
    (hl : AlertManager.lookupEntry table w = none) (hmd : md ≤ 0) :
    AlertManager.stepZone md t (table, events) w =
      (table ++ [(w, ⟨t, true⟩)], events ++ [⟨"intrusion_confirmed", w, 0⟩]) := by
  rw [AlertManager.stepZone, hl]
  exact if_pos hmd

/-- `stepZone` equation: new zone, pending mode. -/
theorem stepZone_new_pending (md t : ℚ) (table : AlertManager.ZoneTable)
    (events : List AlertEvent) (w : String)
    (hl : AlertManager.lookupEntry table w = none) (hmd : ¬ md ≤ 0) :
    AlertManager.stepZone md t (table, events) w =
      (table ++ [(w, ⟨t, false⟩)], events) := by
  rw [AlertManager.stepZone, hl]
  exact if_neg hmd

/-- `stepZone` equation: continuing zone that reaches confirmation. -/
theorem stepZone_confirm (md t : ℚ) (table : AlertManager.ZoneTable)
    (events : List AlertEvent) (w : String) (entry : IntrusionEntry)
    (hl : AlertManager.lookupEntry table w = some entry)
    (hc : t - entry.start_time ≥ md ∧ entry.confirmed = false) :
    AlertManager.stepZone md t (table, events) w =
      (AlertManager.setConfirmed table w,
       events ++ [⟨"intrusion_confirmed", w, t - entry.start_time⟩]) := by
  rw [AlertManager.stepZone, hl]
  exact if_pos hc

/-- `stepZone` equation: continuing zone, nothing to do. -/
theorem stepZone_skip (md t : ℚ) (table : AlertManager.ZoneTable)
    (events : List AlertEvent) (w : String) (entry : IntrusionEntry)
    (hl : AlertManager.lookupEntry table w = some entry)
    (hc : ¬ (t - entry.start_time ≥ md ∧ entry.confirmed = false)) :
    AlertManager.stepZone md t (table, events) w = (table, events) := by
  rw [AlertManager.stepZone, hl]
  exact if_neg hc

/-- With `min_duration ≤ 0`, a zone not yet tracked when its first occurrence
is processed gets an immediate `intrusion_confirmed` event of duration 0. -/
theorem phase1_confirms_new (md t : ℚ) (hmd : md ≤ 0) (z : String) :
    ∀ (zs : List String) (acc : AlertManager.ZoneTable × List AlertEvent),
      z ∈ zs → AlertManager.lookupEntry acc.1 z = none →
      AlertEvent.mk "intrusion_confirmed" z 0 ∈
        (zs.foldl (AlertManager.stepZone md t) acc).2 := by
  intro zs
  induction zs with
  | nil => intro acc h; cases h
  | cons w rest ih =>
    intro acc hz hl
    rw [List.foldl_cons]
    by_cases hwz : w = z
    · subst hwz
      obtain ⟨table, events⟩ := acc
      rw [AlertManager.stepZone, hl]
      simp only [hmd, if_true]
      obtain ⟨suf, hsuf⟩ := phase1_events_mono md t rest
        (table ++ [(w, ⟨t, true⟩)], events ++ [⟨"intrusion_confirmed", w, 0⟩])
      rw [hsuf]
      simp
    · have hz' : z ∈ rest := by
        rcases List.mem_cons.mp hz with h | h
        · exact absurd h.symm hwz
        · exact h
      refine ih _ hz' ?_
      rw [lookup_stepZone_ne md t acc w z hwz]
      exact hl

/-- An entry keyed differently from the confirmed zone passes through
`setConfirmed` untouched. -/
theorem mem_setConfirmed_ne (table : AlertManager.ZoneTable) (w : String)
    (p : String × IntrusionEntry) (hp : p ∈ AlertManager.setConfirmed table w)
    (hpz : p.1 ≠ w) : p ∈ table := by
  rw [AlertManager.setConfirmed] at hp
  obtain ⟨q, hq, hqp⟩ := List.mem_map.mp hp
  by_cases hq1 : q.1 = w
  · rw [if_pos hq1] at hqp
    rw [← hqp] at hpz
    exact absurd hq1 hpz
  · rw [if_neg hq1] at hqp
    rw [← hqp]
    exact hq

/-- With a positive `min_duration`, as long as every processed occurrence of
zone `z` happens less than `min_duration` after reference time `s`, the first
intrusion loop keeps `z`'s entry unconfirmed with a start time at or after
`s`, and logs no `intrusion_confirmed` event for `z`. -/
theorem phase1_no_confirm (md t s : ℚ) (z : String) (hmd : 0 < md) :
    ∀ (zs : List String) (acc : AlertManager.ZoneTable × List AlertEvent),
      (∀ w ∈ zs, w = z → s ≤ t ∧ t - s < md) →
      (∀ p ∈ acc.1, p.1 = z → s ≤ p.2.start_time ∧ p.2.confirmed = false) →
      (∀ p ∈ (zs.foldl (AlertManager.stepZone md t) acc).1, p.1 = z →
        s ≤ p.2.start_time ∧ p.2.confirmed = false) ∧
      (∀ ev ∈ (zs.foldl (AlertManager.stepZone md t) acc).2,
        ev ∈ acc.2 ∨ ¬(ev.event_type = "intrusion_confirmed" ∧ ev.zone_id = z)) := by
  intro zs
  induction zs with
  | nil =>
    intro acc _ hinv
    exact ⟨hinv, fun ev hev => Or.inl hev⟩
  | cons w rest ih =>
    intro acc hcond hinv
    rw [List.foldl_cons]
    have hcond' : ∀ v ∈ rest, v = z → s ≤ t ∧ t - s < md :=
      fun v hv => hcond v (List.mem_cons_of_mem _ hv)
    obtain ⟨table, events⟩ := acc
    have hkey :
        (∀ p ∈ (AlertManager.stepZone md t (table, events) w).1, p.1 = z →
          s ≤ p.2.start_time ∧ p.2.confirmed = false) ∧
        (∀ ev ∈ (AlertManager.stepZone md t (table, events) w).2, ev ∈ events ∨
          ¬(ev.event_type = "intrusion_confirmed" ∧ ev.zone_id = z)) := by
      cases hl : AlertManager.lookupEntry table w with
      | none =>
        rw [stepZone_new_pending md t table events w hl (not_le.mpr hmd)]
        constructor
        · intro p hp hpz
          rcases List.mem_append.mp hp with h | h
          · exact hinv p h hpz
          · rw [List.mem_singleton.mp h] at hpz ⊢
            exact ⟨(hcond w (List.mem_cons_self _ _) hpz).1, rfl⟩
        · exact fun ev hev => Or.inl hev
      | some entry =>
        by_cases hwz : w = z
        · subst hwz
          obtain ⟨p₀, hfind, hp₀⟩ : ∃ p₀,
              table.find? (fun p => p.1 = w) = some p₀ ∧ p₀.2 = entry := by
            rw [AlertManager.lookupEntry] at hl
            cases hf : table.find? (fun p => p.1 = w) with
            | none => rw [hf] at hl; cases hl
            | some p₀ =>
              rw [hf] at hl
              exact ⟨p₀, rfl, Option.some.inj hl⟩
          have hp₀z : p₀.1 = w := by
            have h := List.find?_some hfind
            exact of_decide_eq_true h
          have hse := hinv p₀ (List.mem_of_find?_eq_some hfind) hp₀z
          have hdur : ¬ t - entry.start_time ≥ md := by
            have h1 : s ≤ entry.start_time := hp₀ ▸ hse.1
            have h2 := (hcond w (List.mem_cons_self _ _) rfl).2
            intro hge
            linarith
          rw [stepZone_skip md t table events w entry hl (fun hco => hdur hco.1)]
          exact ⟨hinv, fun ev hev => Or.inl hev⟩
        · by_cases hc : t - entry.start_time ≥ md ∧ entry.confirmed = false
          · rw [stepZone_confirm md t table events w entry hl hc]
            constructor
            · intro p hp hpz
              have hpw : p.1 ≠ w := fun h => hwz ((h ▸ hpz : w = z))
              exact hinv p (mem_setConfirmed_ne table w p hp hpw) hpz
            · intro ev hev
              rcases List.mem_append.mp hev with h | h
              · exact Or.inl h
              · rw [List.mem_singleton.mp h]
                exact Or.inr (fun hco => hwz hco.2)
          · rw [stepZone_skip md t table events w entry hl hc]
            exact ⟨hinv, fun ev hev => Or.inl hev⟩
    obtain ⟨h1, h2⟩ := hkey
    obtain ⟨hfin1, hfin2⟩ := ih (AlertManager.stepZone md t (table, events) w) hcond' h1
    refine ⟨hfin1, ?_⟩
    intro ev hev
    rcases hfin2 ev hev with h | h
    · exact h2 ev h
    · exact Or.inr h

/-- Unfolding of `AlertManager.update` into its two loops. -/
theorem update_eq (md : ℚ) (table : AlertManager.ZoneTable)
    (zs : List AlertManager.ZoneId) (t : ℚ) :
    AlertManager.update md table zs t =
      ((zs.foldl (AlertManager.stepZone md t) (table, [])).1.filter
          (fun p => decide (p.1 ∈ zs)),
       (zs.foldl (AlertManager.stepZone md t) (table, [])).2 ++
         ((zs.foldl (AlertManager.stepZone md t) (table, [])).1.filter
            (fun p => !decide (p.1 ∈ zs) && p.2.confirmed)).map
           (fun p => ⟨"intrusion_ended", p.1, t - p.2.start_time⟩)) := rfl

/-- A single `update` call with positive `min_duration` neither confirms
zone `z` nor logs an `intrusion_confirmed` event for it, provided every
tracked occurrence of `z` is still within `min_duration` of reference
time `s`. -/
theorem update_no_confirm (md t s : ℚ) (z : String) (hmd : 0 < md)
    (table : AlertManager.ZoneTable) (zs : List AlertManager.ZoneId)
    (hcond : z ∈ zs → s ≤ t ∧ t - s < md)
    (hinv : ∀ p ∈ table, p.1 = z → s ≤ p.2.start_time ∧ p.2.confirmed = false) :
    (∀ p ∈ (AlertManager.update md table zs t).1, p.1 = z →
      s ≤ p.2.start_time ∧ p.2.confirmed = false) ∧
    (∀ ev ∈ (AlertManager.update md table zs t).2,
      ¬(ev.event_type = "intrusion_confirmed" ∧ ev.zone_id = z)) := by
  obtain ⟨h1, h2⟩ := phase1_no_confirm md t s z hmd zs (table, [])
    (fun w _ hwz => hcond (hwz ▸ ‹w ∈ zs›)) hinv
  rw [update_eq]
  constructor
  · intro p hp hpz
    exact h1 p (List.mem_filter.mp hp).1 hpz
  · intro ev hev
    rcases List.mem_append.mp hev with h | h
    · rcases h2 ev h with h0 | h0
      · exact absurd h0 (List.not_mem_nil ev)
      · exact h0
    · obtain ⟨q, _, hqe⟩ := List.mem_map.mp h
      intro hco
      rw [← hqe] at hco
      have hty : ("intrusion_ended" : String) ≠ "intrusion_confirmed" := by decide
      exact hty hco.1

/-- A whole run of `update` calls with positive `min_duration` never logs an
`intrusion_confirmed` event for zone `z` when every update that sees `z`
happens less than `min_duration` after reference time `s`. -/
theorem run_no_confirm (md s : ℚ) (z : String) (hmd : 0 < md) :
    ∀ (steps : List (List AlertManager.ZoneId × ℚ)) (table : AlertManager.ZoneTable),
      (∀ q ∈ steps, z ∈ q.1 → s ≤ q.2 ∧ q.2 - s < md) →
      (∀ p ∈ table, p.1 = z → s ≤ p.2.start_time ∧ p.2.confirmed = false) →
      ∀ ev ∈ (AlertManager.runUpdates md steps table).2,
        ¬(ev.event_type = "intrusion_confirmed" ∧ ev.zone_id = z) := by
  intro steps
  induction steps with
  | nil =>
    intro table _ _ ev hev
    exact absurd hev (List.not_mem_nil ev)
  | cons q rest ih =>
    intro table hcond hinv ev hev
    obtain ⟨zq, tq⟩ := q
    obtain ⟨h1, h2⟩ := update_no_confirm md tq s z hmd table zq
      (fun hz => hcond (zq, tq) (List.mem_cons_self _ _) hz) hinv
    rcases List.mem_append.mp hev with h | h
    · exact h2 ev h
    · exact ih (AlertManager.update md table zq tq).1
        (fun q' hq' => hcond q' (List.mem_cons_of_mem _ hq')) h1 ev h

/-- Claim C6: for any `(track, zone)` pair, with `min_duration = 0` the very
first update whose zone set contains a not-yet-tracked zone logs
`intrusion_confirmed` with duration 0 on that same call; with
`min_duration = 2`, a track whose updates keep the zone present only within
a window of 1.9 seconds (and then leave, or stop) never triggers
`intrusion_confirmed` for that zone at any point of the run. -/
theorem c6_intrusion_state_machine :
    (∀ (table : AlertManager.ZoneTable) (zs : List AlertManager.ZoneId)
        (t : ℚ) (z : String),
      AlertManager.lookupEntry table z = none → z ∈ zs →
      AlertEvent.mk "intrusion_confirmed" z 0 ∈ (AlertManager.update 0 table zs t).2) ∧
    (∀ (steps : List (List AlertManager.ZoneId × ℚ)) (s : ℚ) (z : String),
      (∀ q ∈ steps, z ∈ q.1 → s ≤ q.2 ∧ q.2 ≤ s + 19/10) →
      ∀ ev ∈ (AlertManager.runUpdates 2 steps []).2,
        ¬(ev.event_type = "intrusion_confirmed" ∧ ev.zone_id = z)) := by
  constructor
  · intro table zs t z hl hz
    rw [update_eq]
    exact List.mem_append.mpr
      (Or.inl (phase1_confirms_new 0 t le_rfl z zs (table, []) hz hl))
  · intro steps s z hcond
    refine run_no_confirm 2 s z (by norm_num) steps []
      ?_ (fun p hp => absurd hp (List.not_mem_nil p))
    intro q hq hzq
    obtain ⟨h1, h2⟩ := hcond q hq hzq
    exact ⟨h1, by linarith⟩

/-- Witness for C6 at a concrete input: a fresh table, `min_duration = 0`,
zone "Z1" entering at time 4 logs the duration-0 confirmation
immediately. -/
theorem c6_intrusion_state_machine_witness :
    AlertEvent.mk "intrusion_confirmed" "Z1" 0 ∈
      (AlertManager.update 0 [] ["Z1"] 4).2 :=
  c6_intrusion_state_machine.1 [] ["Z1"] 4 "Z1" rfl (by decide)

/-- Confirming zone `w` does not change the sub-list of entries keyed by a
different zone `z`. -/
theorem filter_setConfirmed_ne (table : AlertManager.ZoneTable) (w z : String)
    (hwz : w ≠ z) :
    (AlertManager.setConfirmed table w).filter (fun p => decide (p.1 = z)) =
      table.filter (fun p => decide (p.1 = z)) := by
  induction table with
  | nil => rfl
  | cons p rest ih =>
    simp only [AlertManager.setConfirmed, List.map_cons] at ih ⊢
    by_cases hp : p.1 = w
    · have hz1 : ¬ p.1 = z := fun h => hwz (hp.symm.trans h)
      have hcf : ¬ (decide (p.1 = z) = true) := by simp [hz1]
      rw [if_pos hp, List.filter_cons, List.filter_cons, if_neg hcf, if_neg hcf]
      exact ih
    · rw [if_neg hp, List.filter_cons, List.filter_cons]
      by_cases hz1 : p.1 = z
      · have hct : decide (p.1 = z) = true := by simp [hz1]
        rw [if_pos hct, if_pos hct, ih]
      · have hcf : ¬ (decide (p.1 = z) = true) := by simp [hz1]
        rw [if_neg hcf, if_neg hcf]
        exact ih

/-- One `stepZone` iteration on zone `w ≠ z` does not change the sub-list of
entries keyed by `z`. -/
theorem filter_stepZone_ne (md t : ℚ) (acc : AlertManager.ZoneTable × List AlertEvent)
    (w z : String) (hwz : w ≠ z) :
    (AlertManager.stepZone md t acc w).1.filter (fun p => decide (p.1 = z)) =
      acc.1.filter (fun p => decide (p.1 = z)) := by
  obtain ⟨table, events⟩ := acc
  have happ : ∀ e : IntrusionEntry,
      (table ++ [(w, e)]).filter (fun p => decide (p.1 = z)) =
        table.filter (fun p => decide (p.1 = z)) := by
    intro e
    rw [List.filter_append]
    have : ([(w, e)] : AlertManager.ZoneTable).filter
        (fun p => decide (p.1 = z)) = [] := by
      simp [hwz]
    rw [this, List.append_nil]
  cases hl : AlertManager.lookupEntry table w with
  | none =>
    by_cases hmd : md ≤ 0
    · rw [stepZone_new_confirm md t table events w hl hmd]
      exact happ _
    · rw [stepZone_new_pending md t table events w hl hmd]
      exact happ _
  | some entry =>
    by_cases hc : t - entry.start_time ≥ md ∧ entry.confirmed = false
    · rw [stepZone_confirm md t table events w entry hl hc]
      exact filter_setConfirmed_ne table w z hwz
    · rw [stepZone_skip md t table events w entry hl hc]

/-- The first intrusion loop over a zone set avoiding `z` does not change the
sub-list of entries keyed by `z`. -/
theorem filter_phase1_ne (md t : ℚ) (z : String) :
    ∀ (zs : List AlertManager.ZoneId) (acc : AlertManager.ZoneTable × List AlertEvent),
      z ∉ zs →
      ((zs.foldl (AlertManager.stepZone md t) acc).1).filter
          (fun p => decide (p.1 = z)) =
        acc.1.filter (fun p => decide (p.1 = z)) := by
  intro zs
  induction zs with
  | nil => intro acc _; rfl
  | cons w rest ih =>
    intro acc hz
    rw [List.foldl_cons]
    have hwz : w ≠ z := fun h => hz (h ▸ List.mem_cons_self _ _)
    rw [ih _ (fun h => hz (List.mem_cons_of_mem _ h))]
    exact filter_stepZone_ne md t acc w z hwz

/-- In a table with no duplicate keys, the sub-list keyed by `z` is exactly
the one entry stored under `z`. -/
theorem filter_key_unique (z : String) (e : IntrusionEntry) :
    ∀ table : AlertManager.ZoneTable, (table.map Prod.fst).Nodup →
      (z, e) ∈ table →
      table.filter (fun p => decide (p.1 = z)) = [(z, e)] := by
  intro table
  induction table with
  | nil => intro _ h; cases h
  | cons q rest ih =>
    intro hnodup hmem
    rw [List.map_cons] at hnodup
    obtain ⟨hq, hrest⟩ := List.nodup_cons.mp hnodup
    rcases List.mem_cons.mp hmem with h | h
    · subst h
      rw [List.filter_cons, if_pos (show decide ((z, e).1 = z) = true by simp)]
      have hnil : rest.filter (fun p => decide (p.1 = z)) = [] := by
        rw [List.filter_eq_nil_iff]
        intro p hp
        simp only [decide_eq_true_eq]
        intro hpz
        have hmz : p.1 ∈ List.map Prod.fst rest := List.mem_map_of_mem Prod.fst hp
        rw [hpz] at hmz
        exact hq hmz
      rw [hnil]
    · have hqz : ¬ q.1 = z := by
        intro hqz
        have hmz : z ∈ List.map Prod.fst rest := by
          simpa using List.mem_map_of_mem Prod.fst h
        exact hq (hqz ▸ hmz)
      have hcf : ¬ (decide (q.1 = z) = true) := by simp [hqz]
      rw [List.filter_cons, if_neg hcf]
      exact ih hrest h

/-- Claim C7: in any reachable state (no duplicate zone keys), when a tracked
zone `z` is absent from the current zone set, its entry is discarded by the
call whatever its confirmation state, and `intrusion_ended` is emitted for
`z` on that call exactly when the entry had reached CONFIRMED. -/
theorem c7_ended_iff_confirmed (md t : ℚ) (table : AlertManager.ZoneTable)
    (zs : List AlertManager.ZoneId) (z : String) (e : IntrusionEntry)
    (hnodup : (table.map Prod.fst).Nodup) (hmem : (z, e) ∈ table) (hz : z ∉ zs) :
    (∀ p ∈ (AlertManager.update md table zs t).1, p.1 ≠ z) ∧
    ((∃ ev ∈ (AlertManager.update md table zs t).2,
        ev.event_type = "intrusion_ended" ∧ ev.zone_id = z) ↔ e.confirmed = true) := by
  have hfz : ((zs.foldl (AlertManager.stepZone md t) (table, [])).1).filter
      (fun p => decide (p.1 = z)) = [(z, e)] :=
    (filter_phase1_ne md t z zs (table, []) hz).trans
      (filter_key_unique z e table hnodup hmem)
  have hzmem : ∀ p ∈ (zs.foldl (AlertManager.stepZone md t) (table, [])).1,
      p.1 = z → p = (z, e) := by
    intro p hp hpz
    have : p ∈ ((zs.foldl (AlertManager.stepZone md t) (table, [])).1).filter
        (fun p => decide (p.1 = z)) :=
      List.mem_filter.mpr ⟨hp, by simp [hpz]⟩
    rw [hfz] at this
    exact List.mem_singleton.mp this
  have hzin : (z, e) ∈ (zs.foldl (AlertManager.stepZone md t) (table, [])).1 := by
    have : (z, e) ∈ ((zs.foldl (AlertManager.stepZone md t) (table, [])).1).filter
        (fun p => decide (p.1 = z)) := by
      rw [hfz]; exact List.mem_singleton.mpr rfl
    exact (List.mem_filter.mp this).1
  rw [update_eq]
  constructor
  · intro p hp hpz
    have := (List.mem_filter.mp hp).2
    rw [hpz] at this
    exact hz (by simpa using this)
  · constructor
    · rintro ⟨ev, hev, hty, hzo⟩
      rcases List.mem_append.mp hev with h | h
      · have hconf := phase1_events_confirmed md t zs (table, [])
          (fun ev hev => absurd hev (List.not_mem_nil ev)) ev h
        rw [hconf] at hty
        exact absurd hty (by decide)
      · obtain ⟨q, hq, hqe⟩ := List.mem_map.mp h
        have hq1z : q.1 = z := by rw [← hqe] at hzo; exact hzo
        have hqze : q = (z, e) := hzmem q (List.mem_filter.mp hq).1 hq1z
        have hfl := (List.mem_filter.mp hq).2
        rw [hqze] at hfl
        simp only [Bool.and_eq_true] at hfl
        exact hfl.2
    · intro hconf
      refine ⟨⟨"intrusion_ended", z, t - e.start_time⟩, ?_, rfl, rfl⟩
      refine List.mem_append.mpr (Or.inr ?_)
      refine List.mem_map.mpr ⟨(z, e), ?_, rfl⟩
      refine List.mem_filter.mpr ⟨hzin, ?_⟩
      simp [hz, hconf]

/-- Witness for C7 at a concrete input: a confirmed entry for "Z1" with the
zone absent from the update's set yields exactly one `intrusion_ended`. -/
theorem c7_ended_iff_confirmed_witness :
    (∃ ev ∈ (AlertManager.update 2 [("Z1", ⟨0, true⟩)] [] 7).2,
        ev.event_type = "intrusion_ended" ∧ ev.zone_id = "Z1") ↔
      (IntrusionEntry.mk 0 true).confirmed = true :=
  (c7_ended_iff_confirmed 2 7 [("Z1", ⟨0, true⟩)] [] "Z1" ⟨0, true⟩
    (by decide) (by decide) (by decide)).2

/-- A list left unchanged by `dropWhile` does not start with a matching
element. -/
theorem dropWhile_self_head_false {p : Char → Bool} (c : Char) (cs : List Char)
    (h : (c :: cs).dropWhile p = c :: cs) : p c = false := by
  rw [List.dropWhile_cons] at h
  by_cases hc : p c = true
  · rw [if_pos hc] at h
    have hle : (cs.dropWhile p).length ≤ cs.length := (List.dropWhile_sublist p).length_le
    have h2 := congrArg List.length h
    simp only [List.length_cons] at h2
    omega
  · exact (Bool.not_eq_true _).mp hc

/-- A whitespace-free id prefixed with the camera namespace token is still
whitespace-free on both ends. -/
theorem pyStrip_prefixed (s : ZoneManager.PyStr)
    (h2 : s.reverse.dropWhile Char.isWhitespace = s.reverse) :
    ZoneManager.pyStrip (ZoneManager.camPrefixChars ++ s) =
      ZoneManager.camPrefixChars ++ s := by
  rw [ZoneManager.pyStrip]
  have hleft : (ZoneManager.camPrefixChars ++ s).dropWhile Char.isWhitespace =
      ZoneManager.camPrefixChars ++ s := by
    show (('C' : Char) :: (['A', 'M', 'E', 'R', 'A', '_'] ++ s)).dropWhile
        Char.isWhitespace = _
    rw [List.dropWhile_cons, if_neg (by decide)]
    rfl
  rw [hleft]
  have hright : (ZoneManager.camPrefixChars ++ s).reverse.dropWhile
      Char.isWhitespace = (ZoneManager.camPrefixChars ++ s).reverse := by
    rw [List.reverse_append]
    cases hs : s.reverse with
    | nil => decide
    | cons c cs =>
      rw [hs] at h2
      have hc := dropWhile_self_head_false c cs h2
      show ((c :: cs) ++ ZoneManager.camPrefixChars.reverse).dropWhile
          Char.isWhitespace = _
      rw [List.cons_append, List.dropWhile_cons,
        if_neg (by rw [hc]; exact Bool.false_ne_true)]
  rw [hright, List.reverse_reverse]

/-- A whitespace-free id is left unchanged by `pyStrip`. -/
theorem pyStrip_id (s : ZoneManager.PyStr)
    (h1 : s.dropWhile Char.isWhitespace = s)
    (h2 : s.reverse.dropWhile Char.isWhitespace = s.reverse) :
    ZoneManager.pyStrip s = s := by
  rw [ZoneManager.pyStrip, h1, h2, List.reverse_reverse]

/-- Normalization of a whitespace-free id that does not carry the namespace
token: the id itself. -/
theorem normalize_plain (s : ZoneManager.PyStr)
    (h1 : s.dropWhile Char.isWhitespace = s)
    (h2 : s.reverse.dropWhile Char.isWhitespace = s.reverse)
    (hpf : ¬ ZoneManager.camPrefixChars.isPrefixOf (ZoneManager.pyUpper s) = true) :
    ZoneManager.normalize_camera_id (some s) = some s := by
  rw [ZoneManager.normalize_camera_id]
  rw [pyStrip_id s h1 h2]
  rw [if_neg hpf]

/-- Normalization of a whitespace-free id carrying the namespace token:
exactly the 7 token characters are dropped, the rest keeps its case. -/
theorem normalize_prefixed (s : ZoneManager.PyStr)
    (h2 : s.reverse.dropWhile Char.isWhitespace = s.reverse) :
    ZoneManager.normalize_camera_id (some (ZoneManager.camPrefixChars ++ s)) =
      some s := by
  rw [ZoneManager.normalize_camera_id]
  rw [pyStrip_prefixed s h2]
  have hup : ZoneManager.pyUpper (ZoneManager.camPrefixChars ++ s) =
      ZoneManager.camPrefixChars ++ ZoneManager.pyUpper s := by
    rw [ZoneManager.pyUpper, List.map_append]
    rfl
  have hpre : ZoneManager.camPrefixChars.isPrefixOf
      (ZoneManager.camPrefixChars ++ ZoneManager.pyUpper s) = true := by
    simp [ZoneManager.camPrefixChars, List.isPrefixOf]
  rw [hup, if_pos hpre]
  rw [show (7 : ℕ) = ZoneManager.camPrefixChars.length from rfl, List.drop_left]

/-- Claim C8 counterexample: `"Hall"` and `"hall"` differ only in letter
case, yet `_camera_matches` rejects the pair and `get_zones_for_camera`
returns no zone — the comparison after prefix-stripping is case-sensitive,
so the claimed case-insensitivity fails. -/
theorem c8_counterexample :
    ZoneManager.pyUpper ['H', 'a', 'l', 'l'] = ZoneManager.pyUpper ['h', 'a', 'l', 'l'] ∧
    ZoneManager.camera_matches (some ['H', 'a', 'l', 'l']) (some ['h', 'a', 'l', 'l']) = false ∧
    ZoneManager.get_zones_for_camera [(['z', '1'], some ['H', 'a', 'l', 'l'])]
      (some ['h', 'a', 'l', 'l']) = [] := by
  refine ⟨by decide, by decide, by decide⟩

/-- Claim C8, amended: camera filtering strips surrounding whitespace and one
leading `CAMERA_` namespace token (detected case-insensitively) from each id,
then compares the remainders *case-sensitively*; a `None` query matches
everything.  So ids differing only by the namespace token match, while ids
differing in letter case outside the token match only if identical. -/
theorem c8_camera_normalization (s t : ZoneManager.PyStr)
    (hs1 : s.dropWhile Char.isWhitespace = s)
    (hs2 : s.reverse.dropWhile Char.isWhitespace = s.reverse)
    (hspf : ¬ ZoneManager.camPrefixChars.isPrefixOf (ZoneManager.pyUpper s) = true)
    (ht1 : t.dropWhile Char.isWhitespace = t)
    (ht2 : t.reverse.dropWhile Char.isWhitespace = t.reverse)
    (htpf : ¬ ZoneManager.camPrefixChars.isPrefixOf (ZoneManager.pyUpper t) = true) :
    ZoneManager.camera_matches (some (ZoneManager.camPrefixChars ++ s)) (some s) = true ∧
    ZoneManager.camera_matches (some s) (some (ZoneManager.camPrefixChars ++ s)) = true ∧
    ZoneManager.camera_matches (some s) (some t) = decide (s = t) ∧
    ZoneManager.camera_matches (some s) none = true := by
  have hns := normalize_plain s hs1 hs2 hspf
  have hnt := normalize_plain t ht1 ht2 htpf
  have hnps := normalize_prefixed s hs2
  refine ⟨?_, ?_, ?_, rfl⟩
  · rw [ZoneManager.camera_matches, hns, hnps]
    simp
  · rw [ZoneManager.camera_matches, hns, hnps]
    simp
  · rw [ZoneManager.camera_matches, hns, hnt]
    simp

/-- Witness for C8's amended theorem: `"CAMERA_Door"` matches `"Door"`, while
`"Door"` vs `"door"` compare as unequal. -/
theorem c8_camera_normalization_witness :
    ZoneManager.camera_matches
      (some (ZoneManager.camPrefixChars ++ ['D', 'o', 'o', 'r'])) (some ['D', 'o', 'o', 'r']) = true ∧
    ZoneManager.camera_matches (some ['D', 'o', 'o', 'r']) (some ['d', 'o', 'o', 'r']) = false := by
  obtain ⟨h1, -, h3, -⟩ := c8_camera_normalization ['D', 'o', 'o', 'r'] ['d', 'o', 'o', 'r']
    (by decide) (by decide) (by decide) (by decide) (by decide) (by decide)
  exact ⟨h1, h3.trans (by decide)⟩

/-- Membership through stable insertion. -/
theorem mem_insertSorted {α : Type} (le : α → α → Bool) (a x : α) :
    ∀ l, x ∈ insertSorted le a l ↔ x = a ∨ x ∈ l := by
  intro l
  induction l with
  | nil => simp [insertSorted]
  | cons b l ih =>
    rw [insertSorted]
    by_cases h : le b a = true
    · rw [if_pos h]
      simp only [List.mem_cons, ih]
      tauto
    · rw [if_neg h]
      simp only [List.mem_cons]

/-- The stable sort is a permutation as far as membership is concerned. -/
theorem mem_pySortBy {α : Type} (le : α → α → Bool) (x : α) :
    ∀ l, x ∈ pySortBy le l ↔ x ∈ l := by
  have hgen : ∀ (l : List α) (acc : List α),
      x ∈ l.foldl (fun acc a => insertSorted le a acc) acc ↔ x ∈ acc ∨ x ∈ l := by
    intro l
    induction l with
    | nil => simp
    | cons a l ih =>
      intro acc
      rw [List.foldl_cons, ih (insertSorted le a acc), mem_insertSorted]
      simp only [List.mem_cons]
      tauto
  intro l
  rw [pySortBy, hgen l []]
  simp

/-- Every pair produced by the matching loop pairs a track of its input
list. -/
theorem goMatch_mem {E : Type} (cosine : E → E → ℚ) (meanEmb : List E → E)
    (maxN : ℕ) :
    ∀ (l : List (TrajTrack E)) (m : ReIDMatcher E) (track : TrajTrack E) (gid : ℕ),
      (track, gid) ∈ GlobalMatching.goMatch cosine meanEmb maxN m l → track ∈ l := by
  intro l
  induction l with
  | nil => intro m track gid h; exact absurd h (List.not_mem_nil _)
  | cons tr rest ih =>
    intro m track gid h
    rw [GlobalMatching.goMatch] at h
    rcases List.mem_cons.mp h with h | h
    · rw [(Prod.mk.inj h).1]
      exact List.mem_cons_self tr rest
    · exact List.mem_cons_of_mem _ (ih _ track gid h)

/-- The selection test of `run_global_matching`, characterized. -/
theorem includeTrack_iff {E : Type} (track : TrajTrack E) :
    GlobalMatching.includeTrack track = true ↔
      ((track.class_name = none ∨ track.class_name = some "person") ∧
       ∃ l, track.embeddings = some l ∧ l ≠ []) := by
  cases hc : track.class_name <;> cases he : track.embeddings <;>
    simp [GlobalMatching.includeTrack, hc, he, List.isEmpty_iff]

/-- Claim C10: a loaded track participates in global matching iff its
`class_name` is absent or `"person"` and its `embeddings` list is present
and non-empty; consequently every `(track, global_id)` assignment produced
by `run_global_matching` is for such a track — tracks of any other class
never get a `global_id` from the matching pass. -/
theorem c10_person_filter {E : Type} (cosine : E → E → ℚ) (meanEmb : List E → E)
    (threshold : ℚ) (maxN : ℕ) (tracks : List (TrajTrack E)) :
    (∀ track ∈ tracks,
      (track ∈ tracks.filter GlobalMatching.includeTrack ↔
        ((track.class_name = none ∨ track.class_name = some "person") ∧
         ∃ l, track.embeddings = some l ∧ l ≠ []))) ∧
    (∀ track gid,
      (track, gid) ∈ GlobalMatching.run_global_matching cosine meanEmb threshold
        maxN tracks →
      ((track.class_name = none ∨ track.class_name = some "person") ∧
       ∃ l, track.embeddings = some l ∧ l ≠ [])) := by
  constructor
  · intro track htr
    rw [List.mem_filter]
    constructor
    · intro h
      exact (includeTrack_iff track).mp h.2
    · intro h
      exact ⟨htr, (includeTrack_iff track).mpr h⟩
  · intro track gid hmem
    rw [GlobalMatching.run_global_matching] at hmem
    have h1 := goMatch_mem cosine meanEmb maxN _ _ track gid hmem
    have h2 := (mem_pySortBy _ track _).mp h1
    exact (includeTrack_iff track).mp (List.mem_filter.mp h2).2

/-- Witness for C10 at a concrete input: a `"person"` track with one
embedding is matched (receiving id 1 from a fresh matcher), and satisfies
the selection predicate. -/
theorem c10_person_filter_witness :
    ((TrajTrack.mk "t1" (some "person") (some [()]) 0 : TrajTrack Unit).class_name = none ∨
      (TrajTrack.mk "t1" (some "person") (some [()]) 0 : TrajTrack Unit).class_name = some "person") ∧
    ∃ l, (TrajTrack.mk "t1" (some "person") (some [()]) 0 : TrajTrack Unit).embeddings = some l ∧ l ≠ [] :=
  (c10_person_filter (fun _ _ => (0 : ℚ)) (fun _ => ()) 1 5
    [TrajTrack.mk "t1" (some "person") (some [()]) 0]).2
    (TrajTrack.mk "t1" (some "person") (some [()]) 0) 1 (by decide)

/-- `dedupLoop` equation: an event whose key has no retained representative
is appended and becomes the representative. -/
theorem dedupLoop_new (zones : List (String × Option String))
    (net : Option CameraNetwork) (w : ℚ) (e : DedupEvent) (rest out : List DedupEvent)
    (lbk : List ((ℕ × String × String) × ℕ)) (gid : ℕ) (ty : String) (ts : ℚ)
    (cam zk : String)
    (h1 : e.global_id = some gid) (h2 : e.event_type = some ty)
    (h3 : e.t_sync = some ts) (h4 : e.video_id = some cam)
    (h5 : EventEnricher.zone_key zones e = some zk)
    (hfind : (lbk.find? fun q => q.1 = (gid, ty, zk)) = none) :
    EventEnricher.dedupLoop zones net w (e :: rest) out lbk =
      EventEnricher.dedupLoop zones net w rest (out ++ [e])
        (EventEnricher.upsertKey lbk (gid, ty, zk) out.length) := by
  rw [EventEnricher.dedupLoop]
  simp only [h1, h2, h3, h4, h5, hfind]

/-- `dedupLoop` equation: an event within the window of its key's retained
representative, on an identical-or-adjacent camera, is absorbed into it. -/
theorem dedupLoop_merge (zones : List (String × Option String))
    (net : Option CameraNetwork) (w : ℚ) (e : DedupEvent) (rest out : List DedupEvent)
    (lbk : List ((ℕ × String × String) × ℕ)) (gid : ℕ) (ty : String) (ts : ℚ)
    (cam zk : String) (qp : (ℕ × String × String) × ℕ)
    (prev : DedupEvent) (prev_t : ℚ) (prev_cam : String)
    (h1 : e.global_id = some gid) (h2 : e.event_type = some ty)
    (h3 : e.t_sync = some ts) (h4 : e.video_id = some cam)
    (h5 : EventEnricher.zone_key zones e = some zk)
    (hfind : (lbk.find? fun q => q.1 = (gid, ty, zk)) = some qp)
    (hget : out.get? qp.2 = some prev)
    (hpt : prev.t_sync = some prev_t) (hpc : prev.video_id = some prev_cam)
    (hcond : (if ts - prev_t < 0 then -(ts - prev_t) else ts - prev_t) ≤ w
      ∧ EventEnricher.is_adjacent net prev_cam cam = true) :
    EventEnricher.dedupLoop zones net w (e :: rest) out lbk =
      EventEnricher.dedupLoop zones net w rest
        (out.set qp.2
          { prev with
              t_sync := if ts < prev_t then some ts else prev.t_sync,
              merged_from := prev.merged_from ++
                [⟨some cam, e.track_id, e.zone_id, some ts, e.frame_id⟩] }) lbk := by
  rw [EventEnricher.dedupLoop]
  simp only [h1, h2, h3, h4, h5, hfind, hget, hpt, hpc, if_pos hcond]

/-- `dedupLoop` equation: an event with a retained representative for its key
that fails the window or adjacency test is appended and becomes the key's
new representative. -/
theorem dedupLoop_nomerge (zones : List (String × Option String))
    (net : Option CameraNetwork) (w : ℚ) (e : DedupEvent) (rest out : List DedupEvent)
    (lbk : List ((ℕ × String × String) × ℕ)) (gid : ℕ) (ty : String) (ts : ℚ)
    (cam zk : String) (qp : (ℕ × String × String) × ℕ)
    (prev : DedupEvent) (prev_t : ℚ) (prev_cam : String)
    (h1 : e.global_id = some gid) (h2 : e.event_type = some ty)
    (h3 : e.t_sync = some ts) (h4 : e.video_id = some cam)
    (h5 : EventEnricher.zone_key zones e = some zk)
    (hfind : (lbk.find? fun q => q.1 = (gid, ty, zk)) = some qp)
    (hget : out.get? qp.2 = some prev)
    (hpt : prev.t_sync = some prev_t) (hpc : prev.video_id = some prev_cam)
    (hcond : ¬ ((if ts - prev_t < 0 then -(ts - prev_t) else ts - prev_t) ≤ w
      ∧ EventEnricher.is_adjacent net prev_cam cam = true)) :
    EventEnricher.dedupLoop zones net w (e :: rest) out lbk =
      EventEnricher.dedupLoop zones net w rest (out ++ [e])
        (EventEnricher.upsertKey lbk (gid, ty, zk) out.length) := by
  rw [EventEnricher.dedupLoop]
  simp only [h1, h2, h3, h4, h5, hfind, hget, hpt, hpc, if_neg hcond]

/-- Sorting a two-element list: swap exactly when the first does not
compare `≤`. -/
theorem pySortBy_pair {α : Type} (le : α → α → Bool) (a b : α) :
    pySortBy le [a, b] = if le a b = true then [a, b] else [b, a] := by
  rw [pySortBy]
  simp only [List.foldl_cons, List.foldl_nil]
  show insertSorted le b [a] = _
  rw [insertSorted]
  by_cases h : le a b = true
  · rw [if_pos h, if_pos h]
    rfl
  · rw [if_neg h, if_neg h]

/-- Claim C5, amended: an event is compared against the *retained
representative* recorded for its `(global_id, event_type, zone key)` — for a
stream of two events carrying `global_id` and `t_sync` that is exactly the
pairwise rule: with the earlier event first, they are merged iff same
`global_id`, same `event_type`, same zone key (normalized name, falling back
to `zone_id`), timestamps within the window, and cameras identical or
adjacent (`is_adjacent`, which rejects distinct cameras under an absent or
open network); on a merge the earlier event is kept, the later one's
`(camera, track_id, zone_id, t_sync, frame_id)` is appended to its
`merged_from`, and the later event is dropped; otherwise both survive in
time order. -/
theorem c5_pair_dedup (zones : List (String × Option String))
    (net : Option CameraNetwork) (w t₁ t₂ : ℚ) (gid₁ gid₂ : ℕ)
    (ty₁ ty₂ c₁ c₂ z₁ z₂ : String) (tr₁ tr₂ : Option String) (f₁ f₂ : Option ℕ)
    (mf₁ mf₂ : List MergedFrom) (ht : t₁ ≤ t₂) :
    ((gid₂ = gid₁ ∧ ty₂ = ty₁ ∧
      EventEnricher.zone_key zones (EventEnricher.fullEvent gid₂ ty₂ t₂ c₂ tr₂ z₂ f₂ mf₂) =
        EventEnricher.zone_key zones (EventEnricher.fullEvent gid₁ ty₁ t₁ c₁ tr₁ z₁ f₁ mf₁) ∧
      t₂ - t₁ ≤ w ∧ EventEnricher.is_adjacent net c₁ c₂ = true) →
      EventEnricher.dedup_overlapping_zone_events zones net
          [EventEnricher.fullEvent gid₁ ty₁ t₁ c₁ tr₁ z₁ f₁ mf₁,
           EventEnricher.fullEvent gid₂ ty₂ t₂ c₂ tr₂ z₂ f₂ mf₂] w =
        [EventEnricher.fullEvent gid₁ ty₁ t₁ c₁ tr₁ z₁ f₁
          (mf₁ ++ [⟨some c₂, tr₂, some z₂, some t₂, f₂⟩])]) ∧
    (¬ (gid₂ = gid₁ ∧ ty₂ = ty₁ ∧
      EventEnricher.zone_key zones (EventEnricher.fullEvent gid₂ ty₂ t₂ c₂ tr₂ z₂ f₂ mf₂) =
        EventEnricher.zone_key zones (EventEnricher.fullEvent gid₁ ty₁ t₁ c₁ tr₁ z₁ f₁ mf₁) ∧
      t₂ - t₁ ≤ w ∧ EventEnricher.is_adjacent net c₁ c₂ = true) →
      EventEnricher.dedup_overlapping_zone_events zones net
          [EventEnricher.fullEvent gid₁ ty₁ t₁ c₁ tr₁ z₁ f₁ mf₁,
           EventEnricher.fullEvent gid₂ ty₂ t₂ c₂ tr₂ z₂ f₂ mf₂] w =
        [EventEnricher.fullEvent gid₁ ty₁ t₁ c₁ tr₁ z₁ f₁ mf₁,
         EventEnricher.fullEvent gid₂ ty₂ t₂ c₂ tr₂ z₂ f₂ mf₂]) := by
  obtain ⟨zk₁, hzk₁⟩ : ∃ k, EventEnricher.zone_key zones
      (EventEnricher.fullEvent gid₁ ty₁ t₁ c₁ tr₁ z₁ f₁ mf₁) = some k := by
    rw [EventEnricher.zone_key]
    exact ⟨_, rfl⟩
  obtain ⟨zk₂, hzk₂⟩ : ∃ k, EventEnricher.zone_key zones
      (EventEnricher.fullEvent gid₂ ty₂ t₂ c₂ tr₂ z₂ f₂ mf₂) = some k := by
    rw [EventEnricher.zone_key]
    exact ⟨_, rfl⟩
  have hsk : EventEnricher.sortKeyLe
      (0, EventEnricher.fullEvent gid₁ ty₁ t₁ c₁ tr₁ z₁ f₁ mf₁)
      (1, EventEnricher.fullEvent gid₂ ty₂ t₂ c₂ tr₂ z₂ f₂ mf₂) = true := by
    show (if t₁ = t₂ then decide ((0 : ℕ) ≤ 1) else decide (t₁ < t₂)) = true
    by_cases he : t₁ = t₂
    · rw [if_pos he]; rfl
    · rw [if_neg he]; exact decide_eq_true (lt_of_le_of_ne ht he)
  have huf : EventEnricher.dedup_overlapping_zone_events zones net
      [EventEnricher.fullEvent gid₁ ty₁ t₁ c₁ tr₁ z₁ f₁ mf₁,
       EventEnricher.fullEvent gid₂ ty₂ t₂ c₂ tr₂ z₂ f₂ mf₂] w =
      pySortBy EventEnricher.finalLe (EventEnricher.dedupLoop zones net w
        ((pySortBy EventEnricher.sortKeyLe
          [(0, EventEnricher.fullEvent gid₁ ty₁ t₁ c₁ tr₁ z₁ f₁ mf₁),
           (1, EventEnricher.fullEvent gid₂ ty₂ t₂ c₂ tr₂ z₂ f₂ mf₂)]).map Prod.snd)
        [] []) := rfl
  have hsorted : (pySortBy EventEnricher.sortKeyLe
      [(0, EventEnricher.fullEvent gid₁ ty₁ t₁ c₁ tr₁ z₁ f₁ mf₁),
       (1, EventEnricher.fullEvent gid₂ ty₂ t₂ c₂ tr₂ z₂ f₂ mf₂)]).map Prod.snd =
      [EventEnricher.fullEvent gid₁ ty₁ t₁ c₁ tr₁ z₁ f₁ mf₁,
       EventEnricher.fullEvent gid₂ ty₂ t₂ c₂ tr₂ z₂ f₂ mf₂] := by
    rw [pySortBy_pair, if_pos hsk]
    rfl
  have hstep1 : EventEnricher.dedupLoop zones net w
      [EventEnricher.fullEvent gid₁ ty₁ t₁ c₁ tr₁ z₁ f₁ mf₁,
       EventEnricher.fullEvent gid₂ ty₂ t₂ c₂ tr₂ z₂ f₂ mf₂] [] [] =
      EventEnricher.dedupLoop zones net w
        [EventEnricher.fullEvent gid₂ ty₂ t₂ c₂ tr₂ z₂ f₂ mf₂]
        [EventEnricher.fullEvent gid₁ ty₁ t₁ c₁ tr₁ z₁ f₁ mf₁]
        [((gid₁, ty₁, zk₁), 0)] := by
    rw [dedupLoop_new zones net w _ _ [] [] gid₁ ty₁ t₁ c₁ zk₁ rfl rfl rfl rfl hzk₁ rfl]
    rfl
  have hfl : EventEnricher.finalLe
      (EventEnricher.fullEvent gid₁ ty₁ t₁ c₁ tr₁ z₁ f₁ mf₁)
      (EventEnricher.fullEvent gid₂ ty₂ t₂ c₂ tr₂ z₂ f₂ mf₂) = true := by
    show decide (t₁ ≤ t₂) = true
    exact decide_eq_true ht
  constructor
  · rintro ⟨hg, hty, hzk, htw, hadj⟩
    have hzz : zk₂ = zk₁ := by
      rw [hzk₂, hzk₁] at hzk
      exact Option.some.inj hzk
    have hfind₂ : (([((gid₁, ty₁, zk₁), 0)] :
        List ((ℕ × String × String) × ℕ)).find?
          fun q => q.1 = (gid₂, ty₂, zk₂)) = some ((gid₁, ty₁, zk₁), 0) := by
      rw [hg, hty, hzz]
      simp [List.find?]
    have hcond : (if t₂ - t₁ < 0 then -(t₂ - t₁) else t₂ - t₁) ≤ w ∧
        EventEnricher.is_adjacent net c₁ c₂ = true := by
      refine ⟨?_, hadj⟩
      rw [if_neg (not_lt.mpr (sub_nonneg.mpr ht))]
      exact htw
    have hstep2 := dedupLoop_merge zones net w
      (EventEnricher.fullEvent gid₂ ty₂ t₂ c₂ tr₂ z₂ f₂ mf₂) []
      [EventEnricher.fullEvent gid₁ ty₁ t₁ c₁ tr₁ z₁ f₁ mf₁] [((gid₁, ty₁, zk₁), 0)]
      gid₂ ty₂ t₂ c₂ zk₂ ((gid₁, ty₁, zk₁), 0)
      (EventEnricher.fullEvent gid₁ ty₁ t₁ c₁ tr₁ z₁ f₁ mf₁) t₁ c₁
      rfl rfl rfl rfl hzk₂ hfind₂ rfl rfl rfl hcond
    rw [huf, hsorted, hstep1, hstep2]
    have htx : (if t₂ < t₁ then some t₂
        else (EventEnricher.fullEvent gid₁ ty₁ t₁ c₁ tr₁ z₁ f₁ mf₁).t_sync) =
        some t₁ := by
      rw [if_neg (not_lt.mpr ht)]
      rfl
    rw [htx]
    rfl
  · intro hnd
    by_cases hkey : gid₂ = gid₁ ∧ ty₂ = ty₁ ∧
        EventEnricher.zone_key zones (EventEnricher.fullEvent gid₂ ty₂ t₂ c₂ tr₂ z₂ f₂ mf₂) =
          EventEnricher.zone_key zones (EventEnricher.fullEvent gid₁ ty₁ t₁ c₁ tr₁ z₁ f₁ mf₁)
    · obtain ⟨hg, hty, hzk⟩ := hkey
      have hzz : zk₂ = zk₁ := by
        rw [hzk₂, hzk₁] at hzk
        exact Option.some.inj hzk
      have hfind₂ : (([((gid₁, ty₁, zk₁), 0)] :
          List ((ℕ × String × String) × ℕ)).find?
            fun q => q.1 = (gid₂, ty₂, zk₂)) = some ((gid₁, ty₁, zk₁), 0) := by
        rw [hg, hty, hzz]
        simp [List.find?]
      have hcond' : ¬ ((if t₂ - t₁ < 0 then -(t₂ - t₁) else t₂ - t₁) ≤ w ∧
          EventEnricher.is_adjacent net c₁ c₂ = true) := by
        intro hco
        refine hnd ⟨hg, hty, hzk, ?_, hco.2⟩
        have h1 := hco.1
        rw [if_neg (not_lt.mpr (sub_nonneg.mpr ht))] at h1
        exact h1
      rw [huf, hsorted, hstep1, dedupLoop_nomerge zones net w
        (EventEnricher.fullEvent gid₂ ty₂ t₂ c₂ tr₂ z₂ f₂ mf₂) []
        [EventEnricher.fullEvent gid₁ ty₁ t₁ c₁ tr₁ z₁ f₁ mf₁] [((gid₁, ty₁, zk₁), 0)]
        gid₂ ty₂ t₂ c₂ zk₂ ((gid₁, ty₁, zk₁), 0)
        (EventEnricher.fullEvent gid₁ ty₁ t₁ c₁ tr₁ z₁ f₁ mf₁) t₁ c₁
        rfl rfl rfl rfl hzk₂ hfind₂ rfl rfl rfl hcond']
      show pySortBy EventEnricher.finalLe
        [EventEnricher.fullEvent gid₁ ty₁ t₁ c₁ tr₁ z₁ f₁ mf₁,
         EventEnricher.fullEvent gid₂ ty₂ t₂ c₂ tr₂ z₂ f₂ mf₂] = _
      rw [pySortBy_pair, if_pos hfl]
    · have hne : ¬ ((gid₁, ty₁, zk₁) = (gid₂, ty₂, zk₂)) := by
        intro hcon
        rw [Prod.ext_iff, Prod.ext_iff] at hcon
        obtain ⟨e1, e2, e3⟩ := hcon
        refine hkey ⟨e1.symm, e2.symm, ?_⟩
        rw [hzk₂, hzk₁]
        exact congrArg some e3.symm
      have hfind₂ : (([((gid₁, ty₁, zk₁), 0)] :
          List ((ℕ × String × String) × ℕ)).find?
            fun q => q.1 = (gid₂, ty₂, zk₂)) = none := by
        simp [List.find?, hne]
      rw [huf, hsorted, hstep1, dedupLoop_new zones net w
        (EventEnricher.fullEvent gid₂ ty₂ t₂ c₂ tr₂ z₂ f₂ mf₂) []
        [EventEnricher.fullEvent gid₁ ty₁ t₁ c₁ tr₁ z₁ f₁ mf₁] [((gid₁, ty₁, zk₁), 0)]
        gid₂ ty₂ t₂ c₂ zk₂ rfl rfl rfl rfl hzk₂ hfind₂]
      show pySortBy EventEnricher.finalLe
        [EventEnricher.fullEvent gid₁ ty₁ t₁ c₁ tr₁ z₁ f₁ mf₁,
         EventEnricher.fullEvent gid₂ ty₂ t₂ c₂ tr₂ z₂ f₂ mf₂] = _
      rw [pySortBy_pair, if_pos hfl]

/-- Claim C5 counterexample: three events for `global_id = 7`, the same
event type, zone "Z" and camera "A", at t = 0, 19 and 38 with window 20.
The pair (t=19, t=38) satisfies every condition of the claim — same
`global_id`, `event_type`, zone key, identical cameras, |38−19| = 19 ≤ 20 —
yet the output keeps the t=38 event as a separate, unmerged event: merging
is performed against the *retained representative* (t=0), not pairwise, so
the claim's "merged if and only if" fails. -/
theorem c5_counterexample :
    EventEnricher.zone_key []
        (EventEnricher.fullEvent 7 "intrusion_confirmed" 19 "A" (some "tB") "Z" (some 2) []) =
      EventEnricher.zone_key []
        (EventEnricher.fullEvent 7 "intrusion_confirmed" 38 "A" (some "tC") "Z" (some 3) []) ∧
    (38 : ℚ) - 19 ≤ 20 ∧
    EventEnricher.is_adjacent none "A" "A" = true ∧
    EventEnricher.dedup_overlapping_zone_events [] none
        [EventEnricher.fullEvent 7 "intrusion_confirmed" 0 "A" (some "tA") "Z" (some 1) [],
         EventEnricher.fullEvent 7 "intrusion_confirmed" 19 "A" (some "tB") "Z" (some 2) [],
         EventEnricher.fullEvent 7 "intrusion_confirmed" 38 "A" (some "tC") "Z" (some 3) []] 20 =
      [EventEnricher.fullEvent 7 "intrusion_confirmed" 0 "A" (some "tA") "Z" (some 1)
         [⟨some "A", some "tB", some "Z", some 19, some 2⟩],
       EventEnricher.fullEvent 7 "intrusion_confirmed" 38 "A" (some "tC") "Z" (some 3) []] := by
  refine ⟨rfl, by norm_num, by decide, ?_⟩
  have hsorted : (pySortBy EventEnricher.sortKeyLe
      ([EventEnricher.fullEvent 7 "intrusion_confirmed" 0 "A" (some "tA") "Z" (some 1) [],
        EventEnricher.fullEvent 7 "intrusion_confirmed" 19 "A" (some "tB") "Z" (some 2) [],
        EventEnricher.fullEvent 7 "intrusion_confirmed" 38 "A" (some "tC") "Z" (some 3) []]).enum).map
      Prod.snd =
      [EventEnricher.fullEvent 7 "intrusion_confirmed" 0 "A" (some "tA") "Z" (some 1) [],
       EventEnricher.fullEvent 7 "intrusion_confirmed" 19 "A" (some "tB") "Z" (some 2) [],
       EventEnricher.fullEvent 7 "intrusion_confirmed" 38 "A" (some "tC") "Z" (some 3) []] := by
    decide
  have h1 : EventEnricher.dedupLoop [] none 20
      [EventEnricher.fullEvent 7 "intrusion_confirmed" 0 "A" (some "tA") "Z" (some 1) [],
       EventEnricher.fullEvent 7 "intrusion_confirmed" 19 "A" (some "tB") "Z" (some 2) [],
       EventEnricher.fullEvent 7 "intrusion_confirmed" 38 "A" (some "tC") "Z" (some 3) []] [] [] =
      EventEnricher.dedupLoop [] none 20
        [EventEnricher.fullEvent 7 "intrusion_confirmed" 19 "A" (some "tB") "Z" (some 2) [],
         EventEnricher.fullEvent 7 "intrusion_confirmed" 38 "A" (some "tC") "Z" (some 3) []]
        [EventEnricher.fullEvent 7 "intrusion_confirmed" 0 "A" (some "tA") "Z" (some 1) []]
        [((7, "intrusion_confirmed", "Z"), 0)] := by
    rw [dedupLoop_new [] none 20
      (EventEnricher.fullEvent 7 "intrusion_confirmed" 0 "A" (some "tA") "Z" (some 1) [])
      [EventEnricher.fullEvent 7 "intrusion_confirmed" 19 "A" (some "tB") "Z" (some 2) [],
       EventEnricher.fullEvent 7 "intrusion_confirmed" 38 "A" (some "tC") "Z" (some 3) []]
      [] [] 7 "intrusion_confirmed" 0 "A" "Z" rfl rfl rfl rfl rfl rfl]
    rfl
  have h2 : EventEnricher.dedupLoop [] none 20
      [EventEnricher.fullEvent 7 "intrusion_confirmed" 19 "A" (some "tB") "Z" (some 2) [],
       EventEnricher.fullEvent 7 "intrusion_confirmed" 38 "A" (some "tC") "Z" (some 3) []]
      [EventEnricher.fullEvent 7 "intrusion_confirmed" 0 "A" (some "tA") "Z" (some 1) []]
      [((7, "intrusion_confirmed", "Z"), 0)] =
      EventEnricher.dedupLoop [] none 20
        [EventEnricher.fullEvent 7 "intrusion_confirmed" 38 "A" (some "tC") "Z" (some 3) []]
        [EventEnricher.fullEvent 7 "intrusion_confirmed" 0 "A" (some "tA") "Z" (some 1)
          [⟨some "A", some "tB", some "Z", some 19, some 2⟩]]
        [((7, "intrusion_confirmed", "Z"), 0)] := by
    rw [dedupLoop_merge [] none 20
      (EventEnricher.fullEvent 7 "intrusion_confirmed" 19 "A" (some "tB") "Z" (some 2) [])
      [EventEnricher.fullEvent 7 "intrusion_confirmed" 38 "A" (some "tC") "Z" (some 3) []]
      [EventEnricher.fullEvent 7 "intrusion_confirmed" 0 "A" (some "tA") "Z" (some 1) []]
      [((7, "intrusion_confirmed", "Z"), 0)]
      7 "intrusion_confirmed" 19 "A" "Z" ((7, "intrusion_confirmed", "Z"), 0)
      (EventEnricher.fullEvent 7 "intrusion_confirmed" 0 "A" (some "tA") "Z" (some 1) [])
      0 "A" rfl rfl rfl rfl rfl (by decide) rfl rfl rfl
      ⟨by norm_num, by decide⟩]
    congr 2
  have hc3 : ¬ ((if (38 : ℚ) - 0 < 0 then -((38 : ℚ) - 0) else (38 : ℚ) - 0) ≤ 20 ∧
      EventEnricher.is_adjacent none "A" "A" = true) := by
    intro h
    have h1 := h.1
    rw [if_neg (by norm_num)] at h1
    norm_num at h1
  have h3 : EventEnricher.dedupLoop [] none 20
      [EventEnricher.fullEvent 7 "intrusion_confirmed" 38 "A" (some "tC") "Z" (some 3) []]
      [EventEnricher.fullEvent 7 "intrusion_confirmed" 0 "A" (some "tA") "Z" (some 1)
        [⟨some "A", some "tB", some "Z", some 19, some 2⟩]]
      [((7, "intrusion_confirmed", "Z"), 0)] =
      [EventEnricher.fullEvent 7 "intrusion_confirmed" 0 "A" (some "tA") "Z" (some 1)
        [⟨some "A", some "tB", some "Z", some 19, some 2⟩],
       EventEnricher.fullEvent 7 "intrusion_confirmed" 38 "A" (some "tC") "Z" (some 3) []] := by
    rw [dedupLoop_nomerge [] none 20
      (EventEnricher.fullEvent 7 "intrusion_confirmed" 38 "A" (some "tC") "Z" (some 3) []) []
      [EventEnricher.fullEvent 7 "intrusion_confirmed" 0 "A" (some "tA") "Z" (some 1)
        [⟨some "A", some "tB", some "Z", some 19, some 2⟩]]
      [((7, "intrusion_confirmed", "Z"), 0)]
      7 "intrusion_confirmed" 38 "A" "Z" ((7, "intrusion_confirmed", "Z"), 0)
      (EventEnricher.fullEvent 7 "intrusion_confirmed" 0 "A" (some "tA") "Z" (some 1)
        [⟨some "A", some "tB", some "Z", some 19, some 2⟩])
      0 "A" rfl rfl rfl rfl rfl (by decide) rfl rfl rfl hc3]
    rfl
  show pySortBy EventEnricher.finalLe (EventEnricher.dedupLoop [] none 20 _ [] []) = _
  rw [hsorted, h1, h2, h3]
  decide

/-- Witness for C5's amended theorem: two events for `global_id = 7` in zone
"srv", same camera, at t = 10 and 11 with window 2, merge into one event
recording the later sighting in `merged_from`. -/
theorem c5_pair_dedup_witness :
    EventEnricher.dedup_overlapping_zone_events [] none
        [EventEnricher.fullEvent 7 "intrusion_confirmed" 10 "A" (some "t1") "srv" (some 4) [],
         EventEnricher.fullEvent 7 "intrusion_confirmed" 11 "A" (some "t2") "srv" (some 5) []] 2 =
      [EventEnricher.fullEvent 7 "intrusion_confirmed" 10 "A" (some "t1") "srv" (some 4)
        [⟨some "A", some "t2", some "srv", some 11, some 5⟩]] :=
  (c5_pair_dedup [] none 2 10 11 7 7 "intrusion_confirmed" "intrusion_confirmed"
    "A" "A" "srv" "srv" (some "t1") (some "t2") (some 4) (some 5) [] []
    (by norm_num)).1 ⟨rfl, rfl, rfl, by norm_num, by decide⟩

/-- Claim C3 counterexample: a `CameraNetwork` constructed with zero edges but
`allow_same_camera_match = False` rejects the triple `(A, A, 0)`, because the
same-camera check runs before the open-network check, so the claim's
"returns true for every (prev, new, dt) triple" fails. -/
theorem c3_counterexample :
    (CameraNetwork.mk [] none false).edges = [] ∧
    (CameraNetwork.mk [] none false).allowed_transition
      (some "A") (some "A") (some 0) = false := by
  decide

/-- Claim C3, amended: for a `CameraNetwork` with zero edges,
`allowed_transition` returns true for every triple — any dt, negative
included — except that when both cameras are known and equal the result is
the `allow_same_camera_match` flag (true by default), since the same-camera
rule is checked before the open-network rule. -/
theorem c3_open_network_allows (net : CameraNetwork) (h : net.edges = [])
    (prev_camera new_camera : Option Cam) (dt_s : Option ℚ) :
    net.allowed_transition prev_camera new_camera dt_s =
      (match prev_camera, new_camera with
       | some p, some n => if p = n then net.allow_same_camera_match else true
       | _, _ => true) := by
  have hopen : net.is_open = true := by
    simp [CameraNetwork.is_open, h]
  cases prev_camera with
  | none => cases new_camera <;> rfl
  | some p =>
    cases new_camera with
    | none => rfl
    | some n =>
      by_cases hpn : p = n <;>
        simp [CameraNetwork.allowed_transition, hpn, hopen]

/-- Witness for C3's amended theorem at a concrete input: zero edges,
same-camera matching disabled, distinct cameras, negative dt. -/
theorem c3_open_network_allows_witness :
    (CameraNetwork.mk [] none false).allowed_transition
      (some "A") (some "B") (some (-1)) = true :=
  (c3_open_network_allows (CameraNetwork.mk [] none false) rfl
    (some "A") (some "B") (some (-1))).trans (by decide)

/-- Claim C4 counterexample: on the network with the single edge `A → B`
carrying window `[1, 10]` and no global gap, `allowed_transition A B (-5)`
returns false even though `|-5| = 5` lies inside `[1, 10]`:
`allowed_transition` compares the signed dt against the window, the absolute
value is only applied by its caller in `ReIDMatcher`. -/
theorem c4_counterexample :
    (CameraNetwork.mk [CameraEdge.mk "A" "B" (some 1) (some 10)] none true).allowed_transition
      (some "A") (some "B") (some (-5)) = false ∧
    (1 : ℚ) ≤ |(-5 : ℚ)| ∧ |(-5 : ℚ)| ≤ 10 := by
  refine ⟨by decide, by norm_num, by norm_num⟩

/-- Claim C4, amended: for a network with at least one edge, distinct known
cameras and a dt below the configured global maximum gap, the transition is
allowed exactly when some edge `prev → new` either carries no time window or
satisfies `min_s ≤ dt ≤ max_s` for the *signed* dt as passed (defaults
`min_s = 0`, `max_s = +∞`); with no allowing edge the transition is
rejected.  (The absolute value of the spec is taken by the caller in
`ReIDMatcher.match_track`, not inside `allowed_transition`.) -/
theorem c4_window_semantics (net : CameraNetwork) (p n : Cam) (d : ℚ)
    (hne : net.edges ≠ []) (hpn : p ≠ n)
    (hgap : ∀ g, net.default_max_gap_s = some g → d ≤ g) :
    (net.allowed_transition (some p) (some n) (some d) = true ↔
      ∃ e ∈ net.edges, e.src = p ∧ e.dst = n ∧
        ((e.min_s = none ∧ e.max_s = none) ∨
          (e.min_s.getD 0 ≤ d ∧ ∀ mx, e.max_s = some mx → d ≤ mx))) := by
  have hopen : net.is_open = false := by
    simp [CameraNetwork.is_open, List.isEmpty_iff, hne]
  have hgap' : CameraNetwork.gapExceeded (some d) net.default_max_gap_s = false := by
    cases hg : net.default_max_gap_s with
    | none => rfl
    | some g =>
      have hd := hgap g hg
      simp [CameraNetwork.gapExceeded, not_lt, hd]
  rw [CameraNetwork.allowed_transition]
  simp only [hpn, if_false, hopen, hgap', Bool.false_eq_true, if_false,
    List.any_eq_true]
  refine exists_congr fun e => and_congr_right fun _ => ?_
  by_cases hsd : e.src = p ∧ e.dst = n
  · rw [CameraNetwork.edgeAllows, if_pos hsd]
    by_cases hw : e.min_s = none ∧ e.max_s = none
    · simp [hw, hsd.1, hsd.2]
    · rw [if_neg hw]
      cases hmx : e.max_s with
      | none =>
        have hmn : e.min_s ≠ none := fun hc => hw ⟨hc, hmx⟩
        simp [hsd.1, hsd.2, hmx, hmn]
      | some mx =>
        simp [hsd.1, hsd.2, hmx]
  · rw [CameraNetwork.edgeAllows, if_neg hsd]
    constructor
    · intro hfalse; cases hfalse
    · rintro ⟨h1, h2, -⟩; exact absurd ⟨h1, h2⟩ hsd

/-- Witness for C4's amended theorem: edge `A → B` with window `[1, 10]`,
dt = 5 is allowed. -/
theorem c4_window_semantics_witness :
    (CameraNetwork.mk [CameraEdge.mk "A" "B" (some 1) (some 10)] none true).allowed_transition
      (some "A") (some "B") (some 5) = true := by
  have h := c4_window_semantics
    (CameraNetwork.mk [CameraEdge.mk "A" "B" (some 1) (some 10)] none true)
    "A" "B" 5 (by decide) (by decide) (fun g hg => by cases hg)
  refine h.mpr ⟨CameraEdge.mk "A" "B" (some 1) (some 10), by decide, rfl, rfl,
    Or.inr ⟨by norm_num, fun mx hmx => by cases hmx; norm_num⟩⟩

end Surveillance
